import Mathlib

/-!
Verification development for the Yandex Cloud DNS provider of external-dns
(`provider/yandex/yandex.go` and its mock DNS-zone client).

The Go code is shallowly embedded: record sets, zones and endpoints become
structures; Go maps become association lists with Go-map insert/lookup
semantics; the gRPC client becomes an explicit interface whose mutating call
threads a state; a Go panic (out-of-range index) is modelled by `Option`;
a returned `error` is the `.error` branch of `Except String`.
The configured filters (`endpoint.DomainFilter`, `provider.ZoneTypeFilter`,
`provider.ZoneIDFilter`) are framework values the provider only queries
through `Match`, so they are embedded as abstract boolean predicates.
-/

/-- DNS zone, from `dns.DnsZone` as used by `yandex.go`: identifier, name,
domain (`Zone`), folder and the public-visibility pointer (its nil-ness is
all `getZoneType` inspects, so it is embedded as `Option Unit`). -/
structure DnsZone where
  Id : String
  Name : String
  Zone : String
  FolderId : String
  PublicVisibility : Option Unit
  deriving Repr, DecidableEq

/-- Record set, from `dns.RecordSet`. Go's field `Type` collides with Lean's
`Type`, hence the primed name. `Ttl` is an `int64`, embedded as `Int`. -/
structure RecordSet where
  Name : String
  Type' : String
  Ttl : Int
  Data : List String
  deriving Repr, DecidableEq

/-- Generic endpoint, from `endpoint.Endpoint` as used by the provider:
DNS name, record type, TTL with its configured flag (the provider only calls
`RecordTTL.IsConfigured()`, embedded as the boolean field), and targets. -/
structure Endpoint where
  DNSName : String
  RecordType : String
  RecordTTL : Int
  RecordTTLConfigured : Bool
  Targets : List String
  deriving Repr, DecidableEq

/-- Planned changes, from `plan.Changes` as used by `ApplyChanges`. -/
structure Changes where
  Create : List Endpoint
  UpdateOld : List Endpoint
  UpdateNew : List Endpoint
  Delete : List Endpoint
  deriving Repr, DecidableEq

/-- Update request, from `dns.UpdateRecordSetsRequest`. -/
structure UpdateRecordSetsRequest where
  DnsZoneId : String
  Additions : List RecordSet
  Deletions : List RecordSet
  deriving Repr, DecidableEq

/-- The provider configuration, from `YandexProvider` (yandex.go:46-60); the
three filters are embedded as the boolean predicates their `Match` methods
implement, and the client is passed separately to the operations. -/
structure YandexProvider where
  folder : String
  dryRun : Bool
  domainFilter : String → Bool
  zoneTypeFilter : String → Bool
  zoneIDFilter : String → Bool

/-- The `dnsZoneClient` interface (yandex.go:40-44) over an abstract client
state `σ`: `List` and `ListRecordSets` are read-only, `UpdateRecordSets` is
the single mutating call and returns the successor state. -/
structure Client (σ : Type) where
  list : σ → Except String (List DnsZone)
  listRecordSets : σ → String → Except String (List RecordSet)
  updateRecordSets : σ → UpdateRecordSetsRequest → Except String σ

/-- Go-map lookup on an association list: first binding of the key. -/
def mapLookup {α : Type} (m : List (String × α)) (k : String) : Option α :=
  match m with
  | [] => none
  | (k', v) :: rest => if k' = k then some v else mapLookup rest k

/-- Go-map insert on an association list: replace the binding in place when
the key is present, append otherwise. -/
def mapInsert {α : Type} (m : List (String × α)) (k : String) (v : α) :
    List (String × α) :=
  match m with
  | [] => [(k, v)]
  | (k', v') :: rest =>
    if k' = k then (k, v) :: rest else (k', v') :: mapInsert rest k v

/-- Go-map key removal (`delete`) on an association list. -/
def mapErase {α : Type} (m : List (String × α)) (k : String) :
    List (String × α) :=
  match m with
  | [] => []
  | (k', v') :: rest =>
    if k' = k then rest else (k', v') :: mapErase rest k

/-- From `getZoneType` (yandex.go:279-285): "public" when the
public-visibility pointer is non-nil, "private" otherwise. -/
def getZoneType (zone : DnsZone) : String :=
  match zone.PublicVisibility with
  | some _ => "public"
  | none => "private"

/-- The zone-keeping condition of `zones` (yandex.go:200): domain filter on
`Zone`, type filter on the visibility, and ID filter on the `Id` or on the
`Name` (both sides of the `||`; `fmt.Sprintf` of a string is the string). -/
def zoneFilterMatch (p : YandexProvider) (zone : DnsZone) : Bool :=
  p.domainFilter zone.Zone && p.zoneTypeFilter (getZoneType zone) &&
    (p.zoneIDFilter zone.Id || p.zoneIDFilter zone.Name)

/-- From `zones` (yandex.go:186-209): list zones from the client, keep the
ones matching all filters, keyed by `zone.Id` in a Go map. -/
def YandexProvider.zones {σ : Type} (p : YandexProvider) (c : Client σ)
    (s : σ) : Except String (List (String × DnsZone)) :=
  match c.list s with
  | .error e => .error e
  | .ok listZones =>
    .ok (listZones.foldl
      (fun m zone => if zoneFilterMatch p zone then mapInsert m zone.Id zone else m)
      [])

/-- Modelled from the spec: `provider.EnsureTrailingDot` of the framework is
absent from src; per the spec's "trailing-dot-normalized name" it appends a
trailing dot when one is missing. -/
def ensureTrailingDot (s : String) : String :=
  if s.data.getLast? = some '.' then s else s ++ "."

/-- Modelled from the spec: the suffix test of the framework's
`ZoneIDName.FindZone`, absent from src; a hostname belongs to a zone name
when it equals it or ends with `"." ++` the zone name. -/
def zoneMatches (hostname zoneName : String) : Bool :=
  hostname = zoneName || ("." ++ zoneName).data.isSuffixOf hostname.data

/-- Accumulator loop of `findZone`: keep the candidate with the longest
matching zone name, a first match replacing the empty initial candidate. -/
def findZoneAux (hostname : String) :
    List (String × String) → String × String → String × String
  | [], best => best
  | (zoneID, zoneName) :: rest, best =>
    if zoneMatches hostname zoneName && (best.2 = "" || best.2.length < zoneName.length)
    then findZoneAux hostname rest (zoneID, zoneName)
    else findZoneAux hostname rest best

/-- Modelled from the spec: `provider.ZoneIDName.FindZone` of the framework,
absent from src; per the spec's "determine the owning zone per record by
longest-suffix match" it returns the (zone ID, zone name) pair whose zone
name is the longest suffix match of the hostname, and `("", "")` when no
zone matches. -/
def findZone (mapper : List (String × String)) (hostname : String) :
    String × String :=
  findZoneAux hostname mapper ("", "")

/-- From `endpointToRecordSet` (yandex.go:221-239). A CNAME endpoint has its
first target normalized in place; with an empty target list the Go index
`targets[0]` panics, which the embedding returns as `none`. The TTL defaults
to `yandexRecordTTL = 300` when the endpoint's TTL is not configured. -/
def endpointToRecordSet (e : Endpoint) : Option RecordSet :=
  match (if e.RecordType = "CNAME" then
      match e.Targets with
      | [] => none
      | t :: ts => some (ensureTrailingDot t :: ts)
    else some e.Targets) with
  | none => none
  | some targets =>
    some { Name := ensureTrailingDot e.DNSName
           Data := targets
           Ttl := if e.RecordTTLConfigured then e.RecordTTL else 300
           Type' := e.RecordType }

/-- From `endpointsToRecordSets` (yandex.go:211-219): convert the endpoints
whose DNS name matches the domain filter, in order; a panicking conversion
makes the whole run `none`. -/
def YandexProvider.endpointsToRecordSets (p : YandexProvider) :
    List Endpoint → Option (List RecordSet)
  | [] => some []
  | e :: rest =>
    if p.domainFilter e.DNSName then
      match endpointToRecordSet e with
      | none => none
      | some r =>
        match p.endpointsToRecordSets rest with
        | none => none
        | some rs => some (r :: rs)
    else p.endpointsToRecordSets rest

/-- The combined update request built by `ApplyChanges` (yandex.go:150-156):
additions from `Create` then `UpdateNew`, deletions from `Delete` then
`UpdateOld`, in the source's evaluation order. -/
def combinedUpdateRequest (p : YandexProvider) (changes : Changes) :
    Option UpdateRecordSetsRequest :=
  match p.endpointsToRecordSets changes.Create with
  | none => none
  | some adds =>
    match p.endpointsToRecordSets changes.Delete with
    | none => none
    | some dels =>
      match p.endpointsToRecordSets changes.UpdateOld with
      | none => none
      | some delsOld =>
        match p.endpointsToRecordSets changes.UpdateNew with
        | none => none
        | some addsNew =>
          some { DnsZoneId := ""
                 Additions := adds ++ addsNew
                 Deletions := dels ++ delsOld }

/-- Modelled from the spec: `endpoint.NewEndpointWithTTL` of the framework,
absent from src; per the spec's "convert to generic endpoints" it builds the
endpoint carrying the record set's name, type, TTL and data values (the
framework regards a positive TTL as configured). -/
def recordToEndpoint (r : RecordSet) : Endpoint :=
  { DNSName := r.Name
    RecordType := r.Type'
    RecordTTL := r.Ttl
    RecordTTLConfigured := decide (0 < r.Ttl)
    Targets := r.Data }

/-- Modelled from the spec: `provider.SupportedRecordType` of the framework,
absent from src; the record types the framework supports (the src test suite
relies on type "UNSUPPORTED" being rejected). -/
def supportedRecordTypeModel (recordType : String) : Bool :=
  recordType = "A" || recordType = "AAAA" || recordType = "CNAME" || recordType = "TXT"

/-- Per-zone loop of `Records` (yandex.go:129-144): list each kept zone's
record sets, keep the supported types, convert, concatenate in zone order;
the first failing `ListRecordSets` call aborts the run with its error. -/
def recordsGo {σ : Type} (c : Client σ) (supported : String → Bool) (s : σ) :
    List (String × DnsZone) → Except String (List Endpoint)
  | [] => .ok []
  | (zoneId, _) :: rest =>
    match c.listRecordSets s zoneId with
    | .error e => .error e
    | .ok records =>
      match recordsGo c supported s rest with
      | .error e => .error e
      | .ok eps =>
        .ok (((records.filter (fun r => supported r.Type')).map recordToEndpoint) ++ eps)

/-- From `Records` (yandex.go:124-147): the kept zones' record sets as
endpoints, or the first client error unchanged. The framework's
`SupportedRecordType` is passed in as the abstract predicate `supported`. -/
def YandexProvider.Records {σ : Type} (p : YandexProvider) (c : Client σ)
    (supported : String → Bool) (s : σ) : Except String (List Endpoint) :=
  match p.zones c s with
  | .error e => .error e
  | .ok zonesMap => recordsGo c supported s zonesMap

/-- Append one addition to the request stored at key `k` (the Go statement
`changes[zoneName].Additions = append(...)` at yandex.go:256). -/
def updateAdd (m : List (String × UpdateRecordSetsRequest)) (k : String)
    (a : RecordSet) : List (String × UpdateRecordSetsRequest) :=
  match m with
  | [] => []
  | (k0, v) :: rest =>
    if k0 = k then (k0, { v with Additions := v.Additions ++ [a] }) :: updateAdd rest k a
    else (k0, v) :: updateAdd rest k a

/-- Append one deletion to the request stored at key `k` (yandex.go:264). -/
def updateDel (m : List (String × UpdateRecordSetsRequest)) (k : String)
    (d : RecordSet) : List (String × UpdateRecordSetsRequest) :=
  match m with
  | [] => []
  | (k0, v) :: rest =>
    if k0 = k then (k0, { v with Deletions := v.Deletions ++ [d] }) :: updateDel rest k d
    else (k0, v) :: updateDel rest k d

/-- The zone-ID-to-zone-name mapper of `separateChange` (yandex.go:245-246),
built from the zones map's values. -/
def zoneMapper (zones : List (String × DnsZone)) : List (String × String) :=
  zones.map (fun pr => (pr.2.Id, pr.2.Zone))

/-- The empty per-zone requests of `separateChange` (yandex.go:247-251),
keyed by zone ID and carrying it as `DnsZoneId`. -/
def initRequests (zones : List (String × DnsZone)) :
    List (String × UpdateRecordSetsRequest) :=
  zones.map (fun pr =>
    (pr.2.Id, { DnsZoneId := pr.2.Id, Additions := [], Deletions := [] }))

/-- The zone ID a record is routed to: the first component of `findZone` on
the record's trailing-dot-normalized name, as in yandex.go:255 and :263. -/
def routeKey (mapper : List (String × String)) (r : RecordSet) : String :=
  (findZone mapper (ensureTrailingDot r.Name)).1

/-- The additions loop of `separateChange` (yandex.go:254-260): each addition
joins the request of its routed zone, unless the routed zone ID is the empty
string (the Go `zoneName != ""` check), in which case it is only logged. -/
def routeAdds (mapper : List (String × String))
    (m : List (String × UpdateRecordSetsRequest)) (additions : List RecordSet) :
    List (String × UpdateRecordSetsRequest) :=
  additions.foldl (fun m a =>
    if routeKey mapper a ≠ "" then updateAdd m (routeKey mapper a) a else m) m

/-- The deletions loop of `separateChange` (yandex.go:262-268). -/
def routeDels (mapper : List (String × String))
    (m : List (String × UpdateRecordSetsRequest)) (deletions : List RecordSet) :
    List (String × UpdateRecordSetsRequest) :=
  deletions.foldl (fun m d =>
    if routeKey mapper d ≠ "" then updateDel m (routeKey mapper d) d else m) m

/-- From `separateChange` (yandex.go:241-277): build the name mapper and one
empty request per zone, route each addition and deletion to the request of
the zone found by `findZone` (skipping it when the returned zone ID is the
empty string as the Go `zoneName != ""` check does), and drop the requests
left with no addition and no deletion. -/
def separateChange (zones : List (String × DnsZone))
    (change : UpdateRecordSetsRequest) :
    List (String × UpdateRecordSetsRequest) :=
  let mapper := zoneMapper zones
  let afterDels :=
    routeDels mapper (routeAdds mapper (initRequests zones) change.Additions)
      change.Deletions
  afterDels.filter (fun pr => !(pr.2.Additions.isEmpty && pr.2.Deletions.isEmpty))

/-- The request loop of `ApplyChanges` (yandex.go:165-181), instrumented with
the trace of `UpdateRecordSets` calls actually submitted: a dry run skips
every call; otherwise each request is submitted in turn and the first error
aborts the loop and is returned unchanged. -/
def runUpdates {σ : Type} (c : Client σ) (dryRun : Bool) :
    σ → List UpdateRecordSetsRequest →
    Except String Unit × σ × List UpdateRecordSetsRequest
  | s, [] => (.ok (), s, [])
  | s, r :: rs =>
    if dryRun then runUpdates c dryRun s rs
    else
      match c.updateRecordSets s r with
      | .error e => (.error e, s, [r])
      | .ok s' =>
        match runUpdates c dryRun s' rs with
        | (res, s'', calls) => (res, s'', r :: calls)

/-- From `ApplyChanges` (yandex.go:149-184): build the combined request
(`none` models the Go panic of a CNAME endpoint without targets), list and
filter the zones (a failure there is returned even in dry-run mode), split
the request per zone and run the per-zone loop. The result carries the
returned value, the final client state and the submitted requests. -/
def YandexProvider.ApplyChanges {σ : Type} (p : YandexProvider) (c : Client σ)
    (s : σ) (changes : Changes) :
    Option (Except String Unit × σ × List UpdateRecordSetsRequest) :=
  match combinedUpdateRequest p changes with
  | none => none
  | some updateRequest =>
    some (match p.zones c s with
      | .error e => (.error e, s, [])
      | .ok zonesMap =>
        runUpdates c p.dryRun s ((separateChange zonesMap updateRequest).map Prod.snd))

/-- From `getRecordSetKey` (mock client file, lines 150-152). -/
def getRecordSetKey (recordSet : RecordSet) : String :=
  recordSet.Name ++ "|key|" ++ recordSet.Type'

/-- Key set of a Go `map[string]bool` whose values are all `true`, built by
inserting each string once (the maps of `equalRecordSetsData`). -/
def stringSet (l : List String) : List String :=
  l.foldl (fun m s => if m.contains s then m else m ++ [s]) []

/-- From `equalRecordSetsData` (mock client file, lines 161-183): equal
lengths, then every key of the first map must be a key of the second. -/
def equalRecordSetsData (first second : List String) : Bool :=
  if first.length ≠ second.length then false
  else
    let firstMap := stringSet first
    let secondMap := stringSet second
    firstMap.all (fun k => secondMap.contains k)

/-- From `equalRecordSets` (mock client file, lines 154-159). -/
def equalRecordSets (first second : RecordSet) : Bool :=
  equalRecordSetsData first.Data second.Data &&
    first.Name = second.Name &&
    first.Type' = second.Type' &&
    first.Ttl = second.Ttl

/-- The state of `mockDNSZoneClient` (mock client file, lines 36-39): the
zones by ID and, per zone ID, the record sets keyed by `getRecordSetKey`. -/
structure MockState where
  zones : List (String × DnsZone)
  recordSets : List (String × List (String × RecordSet))
  deriving Repr, DecidableEq

/-- From `recordSetExists` (mock client file, lines 140-148). -/
def recordSetExists (st : MockState) (zoneID : String)
    (recordSet : RecordSet) : Bool :=
  match mapLookup st.recordSets zoneID with
  | none => false
  | some zoneMap => (mapLookup zoneMap (getRecordSetKey recordSet)).isSome

/-- The per-record check of the mock's `deleteRecords` loop: the record set
exists and the stored one compares equal (Go's `||` short-circuits, so the
stored record is only read when it exists). -/
def deleteRecordOk (st : MockState) (zoneID : String) (r : RecordSet) : Bool :=
  match mapLookup st.recordSets zoneID with
  | none => false
  | some zoneMap =>
    match mapLookup zoneMap (getRecordSetKey r) with
    | none => false
    | some stored => equalRecordSets r stored

/-- Remove the keys of the given record sets from the zone's map (the second
loop of the mock's `deleteRecords`; Go's `delete` on an absent zone map is a
no-op). -/
def removeRecordSets (recordSets : List (String × List (String × RecordSet)))
    (zoneID : String) (deletions : List RecordSet) :
    List (String × List (String × RecordSet)) :=
  deletions.foldl (fun m r =>
    match mapLookup m zoneID with
    | none => m
    | some zoneMap => mapInsert m zoneID (mapErase zoneMap (getRecordSetKey r))) recordSets

/-- From `deleteRecords` (mock client file, lines 109-121): the first
deletion that is absent or compares unequal to the stored record set yields
an error; otherwise all the keys are removed. -/
def deleteRecords (st : MockState) (zoneID : String)
    (deletions : List RecordSet) : Except String MockState :=
  match deletions.find? (fun r => !deleteRecordOk st zoneID r) with
  | some r =>
    .error ("record set not found '" ++ r.Name ++ "' in zone with ID '" ++ zoneID ++ "'")
  | none => .ok { st with recordSets := removeRecordSets st.recordSets zoneID deletions }

/-- Insert the record sets that do not exist yet (the second loop of the
mock's `addRecords`; an existing equal record set is left untouched; the Go
code would panic inserting into an absent zone's nil map, a case outside the
mock's use where every zone of interest is registered, embedded as a no-op). -/
def insertRecordSets (recordSets : List (String × List (String × RecordSet)))
    (zoneID : String) (additions : List RecordSet) :
    List (String × List (String × RecordSet)) :=
  additions.foldl (fun m r =>
    match mapLookup m zoneID with
    | none => m
    | some zoneMap =>
      if (mapLookup zoneMap (getRecordSetKey r)).isSome then m
      else mapInsert m zoneID (mapInsert zoneMap (getRecordSetKey r) r)) recordSets

/-- The per-record conflict check of the mock's `addRecords` loop: the key
exists but the stored record set compares unequal. -/
def addRecordConflict (st : MockState) (zoneID : String) (r : RecordSet) : Bool :=
  match mapLookup st.recordSets zoneID with
  | none => false
  | some zoneMap =>
    match mapLookup zoneMap (getRecordSetKey r) with
    | none => false
    | some stored => !equalRecordSets r stored

/-- From `addRecords` (mock client file, lines 123-138): the first addition
whose key already exists with a record set comparing unequal yields an
error; otherwise the additions with fresh keys are inserted. -/
def addRecords (st : MockState) (zoneID : String)
    (additions : List RecordSet) : Except String MockState :=
  match additions.find? (fun r => addRecordConflict st zoneID r) with
  | some r =>
    .error ("record set with name'" ++ r.Name ++ "' and type '" ++ r.Type' ++
      "' already exists in zone with ID '" ++ zoneID ++ "'")
  | none => .ok { st with recordSets := insertRecordSets st.recordSets zoneID additions }

/-- From the mock's `UpdateRecordSets` (mock client file, lines 80-88):
deletions first, then additions; either error propagates. -/
def mockUpdateRecordSets (st : MockState)
    (req : UpdateRecordSetsRequest) : Except String MockState :=
  match deleteRecords st req.DnsZoneId req.Deletions with
  | .error e => .error e
  | .ok st' => addRecords st' req.DnsZoneId req.Additions

/-- From the mock's `List` (mock client file, lines 65-77): all zones. -/
def mockList (st : MockState) : Except String (List DnsZone) :=
  .ok (st.zones.map Prod.snd)

/-- From the mock's `ListRecordSets` (mock client file, lines 90-107): an
error for an unknown zone, otherwise the zone's record sets. -/
def mockListRecordSets (st : MockState) (zoneID : String) :
    Except String (List RecordSet) :=
  match mapLookup st.zones zoneID with
  | none => .error ("zone with ID " ++ zoneID ++ " does not exists")
  | some _ =>
    match mapLookup st.recordSets zoneID with
    | none => .ok []
    | some zoneMap => .ok (zoneMap.map Prod.snd)

/-- The mock client as an instance of the client interface. -/
def mockClient : Client MockState :=
  { list := mockList
    listRecordSets := mockListRecordSets
    updateRecordSets := mockUpdateRecordSets }

/-- Reference run of the non-dry request loop: the client state after every
request succeeded, or the first error. -/
def applyAll {σ : Type} (c : Client σ) :
    σ → List UpdateRecordSetsRequest → Except String σ
  | s, [] => .ok s
  | s, r :: rs =>
    match c.updateRecordSets s r with
    | .error e => .error e
    | .ok s' => applyAll c s' rs

/-- Number of requests of the list that succeed before the first failure
(the whole length when none fails). -/
def okPrefixLen {σ : Type} (c : Client σ) :
    σ → List UpdateRecordSetsRequest → Nat
  | _, [] => 0
  | s, r :: rs =>
    match c.updateRecordSets s r with
    | .error _ => 0
    | .ok s' => okPrefixLen c s' rs + 1

/-- The error of the first failing `ListRecordSets` call over the kept zones
in order, when one fails. -/
def firstListRecordSetsError {σ : Type} (c : Client σ) (s : σ) :
    List (String × DnsZone) → Option String
  | [] => none
  | (zoneId, _) :: rest =>
    match c.listRecordSets s zoneId with
    | .error e => some e
    | .ok _ => firstListRecordSetsError c s rest

/-- The last zone of the list that matches all filters and has the given ID;
it is the zone a Go-map build keyed by `Id` retains for that ID. -/
def lastKept (p : YandexProvider) (id : String) : List DnsZone → Option DnsZone
  | [] => none
  | z :: rest =>
    match lastKept p id rest with
    | some w => some w
    | none => if zoneFilterMatch p z ∧ z.Id = id then some z else none

/-- Concrete fixture: a public zone. -/
def zoneA : DnsZone :=
  { Id := "zone-a-id", Name := "zone-a-name", Zone := "example.com."
    FolderId := "folder", PublicVisibility := some () }

/-- Concrete fixture: an A record set inside `zoneA`. -/
def recA : RecordSet :=
  { Name := "a.example.com.", Type' := "A", Ttl := 300, Data := ["192.0.2.1"] }

/-- Concrete fixture: `recA` with the same key but different data. -/
def recAdiff : RecordSet :=
  { Name := "a.example.com.", Type' := "A", Ttl := 300, Data := ["192.0.2.2"] }

/-- Concrete fixture: a provider whose filters match everything. -/
def pAll : YandexProvider :=
  { folder := "folder", dryRun := false, domainFilter := fun _ => true
    zoneTypeFilter := fun _ => true, zoneIDFilter := fun _ => true }

/-- Concrete fixture: the all-matching provider in dry-run mode. -/
def pDryAll : YandexProvider := { pAll with dryRun := true }

/-- Concrete fixture: a stateless client serving `zoneA` and `recA`. -/
def clientA : Client Unit :=
  { list := fun _ => .ok [zoneA]
    listRecordSets := fun _ _ => .ok [recA]
    updateRecordSets := fun s _ => .ok s }

/-- Concrete fixture: a client whose zone listing fails. -/
def failListClient : Client Unit :=
  { list := fun _ => .error "list failed"
    listRecordSets := fun _ _ => .ok []
    updateRecordSets := fun s _ => .ok s }

/-- Concrete fixture: a client whose mutating call fails. -/
def failUpdateClient : Client Unit :=
  { list := fun _ => .ok [zoneA]
    listRecordSets := fun _ _ => .ok []
    updateRecordSets := fun _ _ => .error "update failed" }

/-- Concrete fixture: the empty change set. -/
def emptyChanges : Changes :=
  { Create := [], UpdateOld := [], UpdateNew := [], Delete := [] }

/-- Concrete fixture: the mock state holding `zoneA` with `recA`. -/
def mockStA : MockState :=
  { zones := [("zone-a-id", zoneA)]
    recordSets := [("zone-a-id", [(getRecordSetKey recA, recA)])] }

/-- Concrete fixture: a provider whose zone ID filter accepts only the
string "zone-a-name" (the `Name` of `zoneA`, not its `Id`). -/
def pNameOnly : YandexProvider :=
  { folder := "folder", dryRun := false, domainFilter := fun _ => true
    zoneTypeFilter := fun _ => true, zoneIDFilter := fun s => s == "zone-a-name" }

/-- Concrete fixture: a zone whose `Id` is the empty string. -/
def zoneEmptyId : DnsZone :=
  { Id := "", Name := "empty-id-zone", Zone := "example.com."
    FolderId := "folder", PublicVisibility := none }

/-- Concrete fixture: an update request adding `recA`. -/
def reqAddA : UpdateRecordSetsRequest :=
  { DnsZoneId := "", Additions := [recA], Deletions := [] }

/-- Concrete fixture: a record set of an unsupported type. -/
def recUnsup : RecordSet :=
  { Name := "u.example.com.", Type' := "UNSUPPORTED", Ttl := 300, Data := ["x"] }

/-- Concrete fixture: a client serving `zoneA` with one unsupported-type
record set. -/
def clientUnsup : Client Unit :=
  { list := fun _ => .ok [zoneA]
    listRecordSets := fun _ _ => .ok [recUnsup]
    updateRecordSets := fun s _ => .ok s }

/-- Concrete fixture: a client whose record-set listing fails. -/
def failRSClient : Client Unit :=
  { list := fun _ => .ok [zoneA]
    listRecordSets := fun _ _ => .error "rs failed"
    updateRecordSets := fun s _ => .ok s }

theorem mapLookup_mapInsert {α : Type} (m : List (String × α)) (k k' : String)
    (v : α) :
    mapLookup (mapInsert m k v) k' = if k = k' then some v else mapLookup m k' := by
  induction m with
  | nil => simp [mapInsert, mapLookup]
  | cons hd tl ih =>
    obtain ⟨k₀, v₀⟩ := hd
    by_cases h0 : k₀ = k
    · subst h0
      simp only [mapInsert, if_pos rfl, mapLookup]
      by_cases hk : k₀ = k' <;> simp [hk]
    · simp only [mapInsert, if_neg h0, mapLookup]
      by_cases hk : k₀ = k'
      · subst hk
        simp only [if_pos rfl]
        have : ¬ k = k₀ := fun h => h0 h.symm
        simp [this]
      · simp [hk, ih]

theorem mapLookup_eq_none_iff {α : Type} (m : List (String × α)) (k : String) :
    mapLookup m k = none ↔ k ∉ m.map Prod.fst := by
  induction m with
  | nil => simp [mapLookup]
  | cons hd tl ih =>
    obtain ⟨k₀, v₀⟩ := hd
    by_cases h0 : k₀ = k
    · subst h0
      simp [mapLookup]
    · have h0' : ¬ k = k₀ := fun h => h0 h.symm
      simp only [mapLookup, if_neg h0, ih, List.map_cons, List.mem_cons]
      constructor
      · intro h hk
        rcases hk with hk | hk
        · exact h0' hk
        · exact h hk
      · intro h hk
        exact h (Or.inr hk)

theorem mapLookup_some_mem {α : Type} {m : List (String × α)} {k : String}
    {v : α} (h : mapLookup m k = some v) : (k, v) ∈ m := by
  induction m with
  | nil => simp [mapLookup] at h
  | cons hd tl ih =>
    obtain ⟨k₀, v₀⟩ := hd
    by_cases h0 : k₀ = k
    · subst h0
      rw [mapLookup, if_pos rfl] at h
      cases h
      exact List.mem_cons_self _ _
    · rw [mapLookup, if_neg h0] at h
      exact List.mem_cons_of_mem _ (ih h)

/-- C3: for every `Changes` input, the combined update request built by
`ApplyChanges` has additions equal to the converted `Create` endpoints
followed by the converted `UpdateNew` endpoints, and deletions equal to the
converted `Delete` endpoints followed by the converted `UpdateOld`
endpoints, where the conversion keeps exactly the endpoints whose DNS name
matches the domain filter. -/
theorem applyChanges_combined_request_shape (p : YandexProvider) (ch : Changes) :
    (∀ r, combinedUpdateRequest p ch = some r →
      ∃ a b c d, p.endpointsToRecordSets ch.Create = some a ∧
        p.endpointsToRecordSets ch.UpdateNew = some b ∧
        p.endpointsToRecordSets ch.Delete = some c ∧
        p.endpointsToRecordSets ch.UpdateOld = some d ∧
        r.Additions = a ++ b ∧ r.Deletions = c ++ d) ∧
    (∀ l, p.endpointsToRecordSets l =
      (l.filter (fun e => p.domainFilter e.DNSName)).mapM endpointToRecordSet) := by
  constructor
  · intro r h
    cases hc : p.endpointsToRecordSets ch.Create with
    | none => simp [combinedUpdateRequest, hc] at h
    | some adds =>
      cases hd : p.endpointsToRecordSets ch.Delete with
      | none => simp [combinedUpdateRequest, hc, hd] at h
      | some dels =>
        cases ho : p.endpointsToRecordSets ch.UpdateOld with
        | none => simp [combinedUpdateRequest, hc, hd, ho] at h
        | some delsOld =>
          cases hn : p.endpointsToRecordSets ch.UpdateNew with
          | none => simp [combinedUpdateRequest, hc, hd, ho, hn] at h
          | some addsNew =>
            refine ⟨adds, addsNew, dels, delsOld, rfl, rfl, rfl, rfl, ?_, ?_⟩ <;>
              simp only [combinedUpdateRequest, hc, hd, ho, hn, Option.some.injEq] at h <;>
              rw [← h]
  · intro l
    induction l with
    | nil => rw [List.filter_nil, List.mapM_nil]; rfl
    | cons e rest ih =>
      by_cases hm : p.domainFilter e.DNSName = true
      · rw [List.filter_cons, if_pos hm, List.mapM_cons]
        simp only [YandexProvider.endpointsToRecordSets, hm, if_true, ih]
        cases he : endpointToRecordSet e <;>
          cases hr : (List.filter (fun e => p.domainFilter e.DNSName) rest).mapM endpointToRecordSet <;>
          simp [he, hr]
      · have hm' : p.domainFilter e.DNSName = false := by
          cases hval : p.domainFilter e.DNSName
          · rfl
          · exact absurd hval hm
        rw [List.filter_cons, if_neg (by rw [hm']; exact Bool.false_ne_true)]
        simp only [YandexProvider.endpointsToRecordSets, hm', ih]
        rfl

/-- Witness for C3 at a concrete provider and change set. -/
theorem applyChanges_combined_request_shape_wit :
    ∃ a b c d, pAll.endpointsToRecordSets emptyChanges.Create = some a ∧
      pAll.endpointsToRecordSets emptyChanges.UpdateNew = some b ∧
      pAll.endpointsToRecordSets emptyChanges.Delete = some c ∧
      pAll.endpointsToRecordSets emptyChanges.UpdateOld = some d ∧
      UpdateRecordSetsRequest.Additions { DnsZoneId := "", Additions := [], Deletions := [] } = a ++ b ∧
      UpdateRecordSetsRequest.Deletions { DnsZoneId := "", Additions := [], Deletions := [] } = c ++ d :=
  (applyChanges_combined_request_shape pAll emptyChanges).1
    { DnsZoneId := "", Additions := [], Deletions := [] } rfl

theorem sep_split {t b d : List Char} :
    ∀ (a c : List Char), '|' ∉ a → '|' ∉ c →
      a ++ ('|' :: t) ++ b = c ++ ('|' :: t) ++ d → a = c ∧ b = d := by
  intro a
  induction a with
  | nil =>
    intro c _ hc h
    cases c with
    | nil =>
      refine ⟨rfl, ?_⟩
      simp only [List.nil_append] at h
      exact List.append_cancel_left h
    | cons y c' =>
      simp only [List.nil_append, List.cons_append, List.cons.injEq] at h
      exact absurd (by rw [h.1]; exact List.mem_cons_self y c') hc
  | cons x a' ih =>
    intro c ha hc h
    cases c with
    | nil =>
      simp only [List.nil_append, List.cons_append, List.cons.injEq] at h
      exact absurd (by rw [← h.1]; exact List.mem_cons_self x a') ha
    | cons y c' =>
      simp only [List.cons_append, List.cons.injEq] at h
      obtain ⟨hxy, htail⟩ := h
      have ha' : '|' ∉ a' := fun hm => ha (List.mem_cons_of_mem _ hm)
      have hc' : '|' ∉ c' := fun hm => hc (List.mem_cons_of_mem _ hm)
      obtain ⟨h1, h2⟩ := ih c' ha' hc' (by simpa using htail)
      exact ⟨by rw [hxy, h1], h2⟩

/-- C7 counterexample: two record sets with different names and types share
the same key, because the separator `"|key|"` can occur inside the
concatenation; the claimed equivalence between key equality and (name, type)
equality is therefore false as stated. -/
theorem getRecordSetKey_collision :
    getRecordSetKey { Name := "z|key", Type' := "w", Ttl := 0, Data := [] } =
      getRecordSetKey { Name := "z", Type' := "key|w", Ttl := 0, Data := [] } ∧
    ("z|key" : String) ≠ "z" := by
  constructor
  · rfl
  · decide

/-- C7 (amended): for record sets whose names contain no `'|'` character,
`getRecordSetKey` equality is equivalent to equality of the (name, type)
pair, so a store keyed by it holds at most one such record set per pair. -/
theorem getRecordSetKey_inj (r1 r2 : RecordSet)
    (h1 : '|' ∉ r1.Name.data) (h2 : '|' ∉ r2.Name.data) :
    getRecordSetKey r1 = getRecordSetKey r2 ↔
      (r1.Name = r2.Name ∧ r1.Type' = r2.Type') := by
  constructor
  · intro h
    have hd : r1.Name.data ++ ('|' :: "key|".data) ++ r1.Type'.data =
        r2.Name.data ++ ('|' :: "key|".data) ++ r2.Type'.data := by
      have := congrArg String.data h
      simpa [getRecordSetKey, String.data_append] using this
    obtain ⟨hn, ht⟩ := sep_split r1.Name.data r2.Name.data h1 h2 hd
    exact ⟨String.ext hn, String.ext ht⟩
  · intro ⟨hn, ht⟩
    rw [getRecordSetKey, getRecordSetKey, hn, ht]

/-- Witness for C7 at two concrete pipe-free record sets. -/
theorem getRecordSetKey_inj_wit :
    getRecordSetKey { Name := "a.example.com.", Type' := "A", Ttl := 0, Data := [] } =
      getRecordSetKey { Name := "a.example.com.", Type' := "A", Ttl := 7, Data := ["x"] } ↔
    (("a.example.com." : String) = "a.example.com." ∧ ("A" : String) = "A") :=
  getRecordSetKey_inj
    { Name := "a.example.com.", Type' := "A", Ttl := 0, Data := [] }
    { Name := "a.example.com.", Type' := "A", Ttl := 7, Data := ["x"] }
    (by decide) (by decide)

theorem containsStr_iff (l : List String) (s : String) :
    l.contains s = true ↔ s ∈ l := by
  rw [List.contains]
  exact List.elem_iff

theorem stringSet_aux_mem (l : List String) :
    ∀ (acc : List String) (s : String),
      s ∈ l.foldl (fun m s => if m.contains s then m else m ++ [s]) acc ↔
        s ∈ acc ∨ s ∈ l := by
  induction l with
  | nil => intro acc s; simp
  | cons x t ih =>
    intro acc s
    rw [List.foldl_cons, ih]
    by_cases hx : acc.contains x = true
    · have hmem : x ∈ acc := (containsStr_iff acc x).mp hx
      rw [if_pos hx]
      simp only [List.mem_cons]
      constructor
      · rintro (h | h)
        · exact Or.inl h
        · exact Or.inr (Or.inr h)
      · rintro (h | h | h)
        · exact Or.inl h
        · exact Or.inl (h ▸ hmem)
        · exact Or.inr h
    · rw [if_neg hx]
      simp only [List.mem_append, List.mem_singleton, List.mem_cons]
      tauto

theorem stringSet_mem (l : List String) (s : String) :
    s ∈ stringSet l ↔ s ∈ l := by
  rw [stringSet, stringSet_aux_mem]
  simp

theorem equalRecordSetsData_iff (first second : List String) :
    equalRecordSetsData first second = true ↔
      (first.length = second.length ∧ ∀ x ∈ first, x ∈ second) := by
  rw [equalRecordSetsData]
  by_cases hl : first.length = second.length
  · rw [if_neg (by simp [hl])]
    simp only [List.all_eq_true, hl, true_and]
    constructor
    · intro h x hx
      exact (stringSet_mem second x).mp
        ((containsStr_iff _ x).mp (h x ((stringSet_mem first x).mpr hx)))
    · intro h x hx
      exact (containsStr_iff _ x).mpr
        ((stringSet_mem second x).mpr (h x ((stringSet_mem first x).mp hx)))
  · rw [if_pos (by simp [hl])]
    simp [hl]

/-- C8 counterexample: with equal name, type and TTL, the record sets with
data `["a","a"]` and `["a","b"]` compare equal although their sets of data
strings differ (`"b"` belongs to one and not the other); the claimed
equivalence with set equality is therefore false as stated. -/
theorem equalRecordSets_not_set_equality :
    equalRecordSets { Name := "n", Type' := "A", Ttl := 300, Data := ["a", "a"] }
        { Name := "n", Type' := "A", Ttl := 300, Data := ["a", "b"] } = true ∧
      ("b" ∈ (["a", "b"] : List String)) ∧ ("b" ∉ (["a", "a"] : List String)) := by
  refine ⟨by decide, by decide, by decide⟩

/-- C8 (amended): for record sets agreeing on name, type and TTL,
`equalRecordSets` returns true iff the data lists have equal length and
every string of the first occurs in the second; in particular the result of
the data comparison is invariant under permutations of either list. -/
theorem equalRecordSets_data_semantics (r1 r2 : RecordSet)
    (hn : r1.Name = r2.Name) (ht : r1.Type' = r2.Type') (hl : r1.Ttl = r2.Ttl) :
    (equalRecordSets r1 r2 = true ↔
      (r1.Data.length = r2.Data.length ∧ ∀ x ∈ r1.Data, x ∈ r2.Data)) ∧
    (∀ d1 d2 : List String, d1.Perm r1.Data → d2.Perm r2.Data →
      equalRecordSetsData d1 d2 = equalRecordSetsData r1.Data r2.Data) := by
  constructor
  · rw [equalRecordSets]
    simp only [Bool.and_eq_true, decide_eq_true_eq]
    rw [equalRecordSetsData_iff]
    constructor
    · intro h
      exact h.1.1.1
    · intro h
      exact ⟨⟨⟨h, hn⟩, ht⟩, hl⟩
  · intro d1 d2 h1 h2
    rw [Bool.eq_iff_iff, equalRecordSetsData_iff, equalRecordSetsData_iff]
    constructor
    · intro ⟨hlen, hmem⟩
      refine ⟨by rw [← h1.length_eq, ← h2.length_eq, hlen], ?_⟩
      intro x hx
      exact h2.mem_iff.mp (hmem x (h1.mem_iff.mpr hx))
    · intro ⟨hlen, hmem⟩
      refine ⟨by rw [h1.length_eq, h2.length_eq, hlen], ?_⟩
      intro x hx
      exact h2.mem_iff.mpr (hmem x (h1.mem_iff.mp hx))

/-- Witness for C8 at two concrete record sets with permuted data. -/
theorem equalRecordSets_data_semantics_wit :
    (equalRecordSets { Name := "n", Type' := "TXT", Ttl := 60, Data := ["a", "b"] }
        { Name := "n", Type' := "TXT", Ttl := 60, Data := ["b", "a"] } = true ↔
      ((["a", "b"] : List String).length = (["b", "a"] : List String).length ∧
        ∀ x ∈ (["a", "b"] : List String), x ∈ (["b", "a"] : List String))) ∧
    (∀ d1 d2 : List String, d1.Perm ["a", "b"] → d2.Perm ["b", "a"] →
      equalRecordSetsData d1 d2 = equalRecordSetsData ["a", "b"] ["b", "a"]) :=
  equalRecordSets_data_semantics
    { Name := "n", Type' := "TXT", Ttl := 60, Data := ["a", "b"] }
    { Name := "n", Type' := "TXT", Ttl := 60, Data := ["b", "a"] }
    rfl rfl rfl

theorem endpointToRecordSet_isSome_iff (e : Endpoint) :
    (endpointToRecordSet e).isSome = true ↔
      ¬(e.RecordType = "CNAME" ∧ e.Targets = []) := by
  rw [endpointToRecordSet]
  by_cases hc : e.RecordType = "CNAME"
  · cases ht : e.Targets with
    | nil => simp [hc, ht]
    | cons t ts => simp [hc, ht]
  · simp [hc]

theorem endpointsToRecordSets_isSome_iff (p : YandexProvider) (l : List Endpoint) :
    (p.endpointsToRecordSets l).isSome = true ↔
      ∀ e ∈ l, p.domainFilter e.DNSName = true → (endpointToRecordSet e).isSome = true := by
  induction l with
  | nil => simp [YandexProvider.endpointsToRecordSets]
  | cons e rest ih =>
    by_cases hm : p.domainFilter e.DNSName = true
    · simp only [YandexProvider.endpointsToRecordSets, hm, if_true]
      cases he : endpointToRecordSet e with
      | none =>
        simp only [Option.isSome_none, List.mem_cons]
        constructor
        · intro h
          exact absurd h (by simp)
        · intro h
          have := h e (Or.inl rfl) hm
          rw [he] at this
          exact absurd this (by simp)
      | some r =>
        cases hrest : p.endpointsToRecordSets rest with
        | none =>
          simp only [Option.isSome_none, List.mem_cons]
          rw [hrest] at ih
          constructor
          · intro h
            exact absurd h (by simp)
          · intro h
            have : (Option.none : Option (List RecordSet)).isSome = true :=
              ih.mpr (fun e' he' hm' => h e' (Or.inr he') hm')
            exact absurd this (by simp)
        | some rs =>
          simp only [Option.isSome_some, true_iff, List.mem_cons]
          intro e' he' hm'
          rcases he' with he' | he'
          · rw [he', he]
            simp
          · rw [hrest] at ih
            exact ih.mp (by simp) e' he' hm'
    · have hm' : p.domainFilter e.DNSName = false := by
        cases hv : p.domainFilter e.DNSName
        · rfl
        · exact absurd hv hm
      simp only [YandexProvider.endpointsToRecordSets, hm', if_false, ih, List.mem_cons,
        Bool.false_eq_true]
      constructor
      · intro h e' he' hmm
        rcases he' with he' | he'
        · rw [he'] at hmm
          rw [hmm] at hm'
          exact absurd hm' (by simp)
        · exact h e' he' hmm
      · intro h e' he' hmm
        exact h e' (Or.inr he') hmm

theorem combinedUpdateRequest_isSome_iff (p : YandexProvider) (ch : Changes) :
    (combinedUpdateRequest p ch).isSome = true ↔
      ∀ e ∈ ch.Create ++ ch.Delete ++ ch.UpdateOld ++ ch.UpdateNew,
        p.domainFilter e.DNSName = true → (endpointToRecordSet e).isSome = true := by
  rw [combinedUpdateRequest]
  cases hc : p.endpointsToRecordSets ch.Create with
  | none =>
    have h1 := endpointsToRecordSets_isSome_iff p ch.Create
    rw [hc] at h1
    simp only [Option.isSome_none, Bool.false_eq_true, false_iff, List.mem_append] at h1 ⊢
    intro h
    exact h1 (fun e he hm => h e (Or.inl (Or.inl (Or.inl he))) hm)
  | some adds =>
    have h1 := endpointsToRecordSets_isSome_iff p ch.Create
    rw [hc] at h1
    cases hd : p.endpointsToRecordSets ch.Delete with
    | none =>
      have h2 := endpointsToRecordSets_isSome_iff p ch.Delete
      rw [hd] at h2
      simp only [Option.isSome_none, Bool.false_eq_true, false_iff, List.mem_append] at h2 ⊢
      intro h
      exact h2 (fun e he hm => h e (Or.inl (Or.inl (Or.inr he))) hm)
    | some dels =>
      have h2 := endpointsToRecordSets_isSome_iff p ch.Delete
      rw [hd] at h2
      cases ho : p.endpointsToRecordSets ch.UpdateOld with
      | none =>
        have h3 := endpointsToRecordSets_isSome_iff p ch.UpdateOld
        rw [ho] at h3
        simp only [Option.isSome_none, Bool.false_eq_true, false_iff, List.mem_append] at h3 ⊢
        intro h
        exact h3 (fun e he hm => h e (Or.inl (Or.inr he)) hm)
      | some delsOld =>
        have h3 := endpointsToRecordSets_isSome_iff p ch.UpdateOld
        rw [ho] at h3
        cases hn : p.endpointsToRecordSets ch.UpdateNew with
        | none =>
          have h4 := endpointsToRecordSets_isSome_iff p ch.UpdateNew
          rw [hn] at h4
          simp only [Option.isSome_none, Bool.false_eq_true, false_iff, List.mem_append] at h4 ⊢
          intro h
          exact h4 (fun e he hm => h e (Or.inr he) hm)
        | some addsNew =>
          simp only [Option.isSome_some, true_iff, List.mem_append]
          intro e he hm
          have h4 := endpointsToRecordSets_isSome_iff p ch.UpdateNew
          rw [hn] at h4
          rcases he with ((he | he) | he) | he
          · exact h1.mp rfl e he hm
          · exact h2.mp rfl e he hm
          · exact h3.mp rfl e he hm
          · exact h4.mp rfl e he hm

/-- C10: `endpointToRecordSet` indexes the first target of every CNAME
endpoint: for a CNAME endpoint with a nonempty target list the conversion is
defined (and its TTL is 300 when the endpoint's TTL is not configured),
while for a CNAME endpoint with an empty target list the out-of-range index
makes it panic (`none`); consequently `ApplyChanges` is total exactly when
every domain-filter-matching CNAME endpoint of the changes has a target. -/
theorem cname_first_target_total (e : Endpoint) :
    (e.RecordType = "CNAME" → e.Targets ≠ [] →
      ∃ r, endpointToRecordSet e = some r ∧
        (e.RecordTTLConfigured = false → r.Ttl = 300)) ∧
    (e.RecordType = "CNAME" → e.Targets = [] → endpointToRecordSet e = none) ∧
    (∀ (σ : Type) (c : Client σ) (p : YandexProvider) (s : σ) (ch : Changes),
      (p.ApplyChanges c s ch).isSome = true ↔
        ∀ ep ∈ ch.Create ++ ch.Delete ++ ch.UpdateOld ++ ch.UpdateNew,
          p.domainFilter ep.DNSName = true → ep.RecordType = "CNAME" →
            ep.Targets ≠ []) := by
  refine ⟨?_, ?_, ?_⟩
  · intro hc hne
    cases ht : e.Targets with
    | nil => exact absurd ht hne
    | cons t ts =>
      refine ⟨{ Name := ensureTrailingDot e.DNSName, Data := ensureTrailingDot t :: ts
                Ttl := if e.RecordTTLConfigured then e.RecordTTL else 300
                Type' := e.RecordType }, ?_, ?_⟩
      · rw [endpointToRecordSet, if_pos hc, ht]
      · intro hcfg
        simp [hcfg]
  · intro hc hnil
    rw [endpointToRecordSet, if_pos hc, hnil]
  · intro σ c p s ch
    have happ : (p.ApplyChanges c s ch).isSome = (combinedUpdateRequest p ch).isSome := by
      rw [YandexProvider.ApplyChanges]
      cases combinedUpdateRequest p ch <;> simp
    rw [happ, combinedUpdateRequest_isSome_iff]
    constructor
    · intro h ep hin hm hc
      have := h ep hin hm
      rw [endpointToRecordSet_isSome_iff] at this
      intro hnil
      exact this ⟨hc, hnil⟩
    · intro h ep hin hm
      rw [endpointToRecordSet_isSome_iff]
      intro ⟨hc, hnil⟩
      exact h ep hin hm hc hnil

/-- Witness for C10 at a concrete CNAME endpoint with one target. -/
theorem cname_first_target_total_wit :
    ∃ r, endpointToRecordSet
        { DNSName := "c.example.com", RecordType := "CNAME", RecordTTL := 0
          RecordTTLConfigured := false, Targets := ["t.example.com"] } = some r ∧
      (Bool.false = false → r.Ttl = 300) :=
  (cname_first_target_total
    { DNSName := "c.example.com", RecordType := "CNAME", RecordTTL := 0
      RecordTTLConfigured := false, Targets := ["t.example.com"] }).1
    rfl (by decide)

theorem runUpdates_dry {σ : Type} (c : Client σ) (s : σ)
    (reqs : List UpdateRecordSetsRequest) :
    runUpdates c true s reqs = (.ok (), s, []) := by
  induction reqs with
  | nil => rfl
  | cons r rs ih => rw [runUpdates, if_pos rfl]; exact ih

/-- C1 counterexample: with the dry-run flag set and a client whose zone
listing fails, `ApplyChanges` returns the listing error rather than nil, so
the claim's "returns nil" conjunct is false as stated (the zones call at
yandex.go:158-161 precedes the dry-run check). -/
theorem dryRun_returns_list_error_cex :
    pDryAll.ApplyChanges failListClient () emptyChanges =
      some (.error "list failed", (), []) ∧
    (Except.error "list failed" : Except String Unit) ≠ .ok () := by
  constructor
  · rfl
  · intro h
    exact Except.noConfusion h

/-- C1 (amended): for every `Changes` input on which `ApplyChanges` returns,
if the provider's dry-run flag is true then no `UpdateRecordSets` call is
made and the client's record-set state is unchanged; the result is nil
whenever the zone-listing call succeeds, and is the listing error itself
when that call fails. -/
theorem dryRun_no_mutation {σ : Type} (c : Client σ) (p : YandexProvider)
    (s : σ) (ch : Changes)
    (out : Except String Unit × σ × List UpdateRecordSetsRequest)
    (hdry : p.dryRun = true) (h : p.ApplyChanges c s ch = some out) :
    out.2.2 = [] ∧ out.2.1 = s ∧
      (∀ e, c.list s = .error e → out.1 = .error e) ∧
      (∀ zs, c.list s = .ok zs → out.1 = .ok ()) := by
  cases hreq : combinedUpdateRequest p ch with
  | none =>
    simp only [YandexProvider.ApplyChanges, hreq] at h
    exact Option.noConfusion h
  | some req =>
    cases hlist : c.list s with
    | error e =>
      simp only [YandexProvider.ApplyChanges, hreq, YandexProvider.zones, hlist,
        Option.some.injEq] at h
      subst h
      refine ⟨rfl, rfl, ?_, ?_⟩
      · intro e' he'
        injection he' with he'
        subst he'
        rfl
      · intro zs hzs
        exact Except.noConfusion hzs
    | ok zs =>
      simp only [YandexProvider.ApplyChanges, hreq, YandexProvider.zones, hlist, hdry] at h
      rw [runUpdates_dry] at h
      simp only [Option.some.injEq] at h
      subst h
      refine ⟨rfl, rfl, ?_, ?_⟩
      · intro e' he'
        exact Except.noConfusion he'
      · intro zs' hzs
        rfl

/-- Witness for C1 at the concrete dry-run provider and stateless client. -/
theorem dryRun_no_mutation_wit :
    ([] : List UpdateRecordSetsRequest) = [] ∧ () = () ∧
      (∀ e, clientA.list () = .error e →
        (Except.ok () : Except String Unit) = .error e) ∧
      (∀ zs, clientA.list () = .ok zs →
        (Except.ok () : Except String Unit) = .ok ()) :=
  dryRun_no_mutation clientA pDryAll () emptyChanges (.ok (), (), []) rfl rfl

/-- C9: an addition or deletion whose (name, type) key exists in the zone
with a stored counterpart comparing unequal (differing data or TTL) makes
the mock backend's `UpdateRecordSets` return an error, which the
`ApplyChanges` request loop propagates unchanged, while an addition whose
key exists with an equal stored record set leaves the store unchanged and
returns no error. -/
theorem conflicting_record_backend_error (st : MockState) (zoneID : String)
    (zoneMap : List (String × RecordSet)) (a stored : RecordSet)
    (hz : mapLookup st.recordSets zoneID = some zoneMap)
    (hk : mapLookup zoneMap (getRecordSetKey a) = some stored) :
    (equalRecordSets a stored = false →
      (∃ e, addRecords st zoneID [a] = .error e) ∧
      (∃ e, deleteRecords st zoneID [a] = .error e) ∧
      (∃ e, mockUpdateRecordSets st
          { DnsZoneId := zoneID, Additions := [a], Deletions := [] } = .error e ∧
        runUpdates mockClient false st
            [{ DnsZoneId := zoneID, Additions := [a], Deletions := [] }] =
          (.error e, st,
            [{ DnsZoneId := zoneID, Additions := [a], Deletions := [] }])) ∧
      (∃ e, mockUpdateRecordSets st
          { DnsZoneId := zoneID, Additions := [], Deletions := [a] } = .error e)) ∧
    (equalRecordSets a stored = true →
      mockUpdateRecordSets st
        { DnsZoneId := zoneID, Additions := [a], Deletions := [] } = .ok st) := by
  have hdelEmpty : deleteRecords st zoneID [] = .ok st := rfl
  constructor
  · intro hne
    have hconf : addRecordConflict st zoneID a = true := by
      simp [addRecordConflict, hz, hk, hne]
    have hadd : addRecords st zoneID [a] =
        .error ("record set with name'" ++ a.Name ++ "' and type '" ++ a.Type' ++
          "' already exists in zone with ID '" ++ zoneID ++ "'") := by
      rw [addRecords, List.find?_cons, hconf]
    have hdelOk : deleteRecordOk st zoneID a = false := by
      simp [deleteRecordOk, hz, hk, hne]
    have hdel : deleteRecords st zoneID [a] =
        .error ("record set not found '" ++ a.Name ++ "' in zone with ID '" ++
          zoneID ++ "'") := by
      rw [deleteRecords, List.find?_cons, hdelOk]
      rfl
    have hupdAdd : mockUpdateRecordSets st
        { DnsZoneId := zoneID, Additions := [a], Deletions := [] } =
        .error ("record set with name'" ++ a.Name ++ "' and type '" ++ a.Type' ++
          "' already exists in zone with ID '" ++ zoneID ++ "'") := by
      rw [mockUpdateRecordSets]
      simp only [hdelEmpty]
      exact hadd
    have hupdDel : mockUpdateRecordSets st
        { DnsZoneId := zoneID, Additions := [], Deletions := [a] } =
        .error ("record set not found '" ++ a.Name ++ "' in zone with ID '" ++
          zoneID ++ "'") := by
      rw [mockUpdateRecordSets]
      simp only [hdel]
    refine ⟨⟨_, hadd⟩, ⟨_, hdel⟩, ⟨_, hupdAdd, ?_⟩, ⟨_, hupdDel⟩⟩
    rw [runUpdates, if_neg (by simp)]
    have hcall : mockClient.updateRecordSets st
        { DnsZoneId := zoneID, Additions := [a], Deletions := [] } =
        .error ("record set with name'" ++ a.Name ++ "' and type '" ++ a.Type' ++
          "' already exists in zone with ID '" ++ zoneID ++ "'") := hupdAdd
    rw [hcall]
  · intro heq
    have hconf : addRecordConflict st zoneID a = false := by
      simp [addRecordConflict, hz, hk, heq]
    rw [mockUpdateRecordSets]
    simp only [hdelEmpty]
    rw [addRecords, List.find?_cons, hconf]
    have hins : insertRecordSets st.recordSets zoneID [a] = st.recordSets := by
      rw [insertRecordSets, List.foldl_cons]
      simp only [hz, hk, Option.isSome_some, if_true, List.foldl_nil]
    rw [hins]
    rfl

/-- Witness for C9 at the concrete mock store holding `recA`. -/
theorem conflicting_record_backend_error_wit :
    (equalRecordSets recAdiff recA = false →
      (∃ e, addRecords mockStA "zone-a-id" [recAdiff] = .error e) ∧
      (∃ e, deleteRecords mockStA "zone-a-id" [recAdiff] = .error e) ∧
      (∃ e, mockUpdateRecordSets mockStA
          { DnsZoneId := "zone-a-id", Additions := [recAdiff], Deletions := [] } = .error e ∧
        runUpdates mockClient false mockStA
            [{ DnsZoneId := "zone-a-id", Additions := [recAdiff], Deletions := [] }] =
          (.error e, mockStA,
            [{ DnsZoneId := "zone-a-id", Additions := [recAdiff], Deletions := [] }])) ∧
      (∃ e, mockUpdateRecordSets mockStA
          { DnsZoneId := "zone-a-id", Additions := [], Deletions := [recAdiff] } = .error e)) ∧
    (equalRecordSets recAdiff recA = true →
      mockUpdateRecordSets mockStA
        { DnsZoneId := "zone-a-id", Additions := [recAdiff], Deletions := [] } = .ok mockStA) :=
  conflicting_record_backend_error mockStA "zone-a-id"
    [(getRecordSetKey recA, recA)] recAdiff recA (by rfl) (by decide)

theorem zoneFilterMatch_iff (p : YandexProvider) (z : DnsZone) :
    zoneFilterMatch p z = true ↔
      (p.domainFilter z.Zone = true ∧ p.zoneTypeFilter (getZoneType z) = true ∧
        (p.zoneIDFilter z.Id = true ∨ p.zoneIDFilter z.Name = true)) := by
  rw [zoneFilterMatch]
  simp only [Bool.and_eq_true, Bool.or_eq_true]
  tauto

theorem zonesFold_lookup (p : YandexProvider) (id : String) :
    ∀ (zs : List DnsZone) (m0 : List (String × DnsZone)),
      mapLookup (zs.foldl
          (fun m zone => if zoneFilterMatch p zone then mapInsert m zone.Id zone else m)
          m0) id =
        match lastKept p id zs with
        | some w => some w
        | none => mapLookup m0 id := by
  intro zs
  induction zs with
  | nil => intro m0; rfl
  | cons z rest ih =>
    intro m0
    rw [List.foldl_cons, ih]
    cases hrest : lastKept p id rest with
    | some w => rw [lastKept, hrest]
    | none =>
      rw [lastKept, hrest]
      by_cases hmz : zoneFilterMatch p z = true
      · rw [if_pos hmz, mapLookup_mapInsert]
        by_cases hid : z.Id = id
        · rw [if_pos hid, if_pos ⟨hmz, hid⟩]
        · rw [if_neg hid, if_neg (fun h => hid h.2)]
      · have hmz' : zoneFilterMatch p z = false := by
          cases hv : zoneFilterMatch p z
          · rfl
          · exact absurd hv hmz
        rw [if_neg (by rw [hmz']; exact Bool.false_ne_true),
          if_neg (fun h => hmz h.1)]

theorem lastKept_some {p : YandexProvider} {id : String} :
    ∀ {zs : List DnsZone} {w : DnsZone}, lastKept p id zs = some w →
      w ∈ zs ∧ zoneFilterMatch p w = true ∧ w.Id = id := by
  intro zs
  induction zs with
  | nil => intro w h; exact Option.noConfusion h
  | cons z rest ih =>
    intro w h
    rw [lastKept] at h
    cases hrest : lastKept p id rest with
    | some w' =>
      rw [hrest] at h
      cases h
      obtain ⟨h1, h2, h3⟩ := ih hrest
      exact ⟨List.mem_cons_of_mem _ h1, h2, h3⟩
    | none =>
      rw [hrest] at h
      by_cases hc : zoneFilterMatch p z ∧ z.Id = id
      · rw [if_pos hc] at h
        cases h
        exact ⟨List.mem_cons_self _ _, hc.1, hc.2⟩
      · rw [if_neg hc] at h
        exact Option.noConfusion h

theorem lastKept_of_mem {p : YandexProvider} {id : String} :
    ∀ {zs : List DnsZone} {z : DnsZone}, (zs.map DnsZone.Id).Nodup →
      z ∈ zs → zoneFilterMatch p z = true → z.Id = id →
      lastKept p id zs = some z := by
  intro zs
  induction zs with
  | nil => intro z _ hm; exact absurd hm (List.not_mem_nil z)
  | cons z0 rest ih =>
    intro z hnd hm hf hid
    rw [List.map_cons, List.nodup_cons] at hnd
    rcases List.mem_cons.mp hm with hm | hm
    · subst hm
      cases hrest : lastKept p id rest with
      | some w =>
        obtain ⟨hw1, _, hw3⟩ := lastKept_some hrest
        exact absurd (by rw [← hid] at hw3; rw [← hw3]; exact List.mem_map_of_mem DnsZone.Id hw1)
          hnd.1
      | none =>
        rw [lastKept, hrest, if_pos ⟨hf, hid⟩]
    · rw [lastKept, ih hnd.2 hm hf hid]

/-- C2 counterexample: a zone whose `Id` the zone ID filter rejects but
whose `Name` it accepts is kept by `zones` and mapped under its `Id`,
although the claim as stated excludes every zone whose `Id` the filter does
not match (the code at yandex.go:200 also tries the zone's `Name`). -/
theorem zones_idFilter_name_cex :
    pNameOnly.zones clientA () = .ok [("zone-a-id", zoneA)] ∧
    pNameOnly.zoneIDFilter zoneA.Id = false ∧
    pNameOnly.zoneIDFilter zoneA.Name = true := by
  refine ⟨rfl, by decide, by decide⟩

/-- C2 (amended): for every zone list returned by the client's `List` call
with pairwise distinct zone IDs, `zones` returns exactly the zones matching
the domain filter on `Zone`, the zone type filter on the visibility, and the
zone ID filter on the `Id` or on the `Name`, each kept zone mapped under its
`Id`. -/
theorem zones_filter_characterization {σ : Type} (c : Client σ)
    (p : YandexProvider) (s : σ) (zs : List DnsZone)
    (hlist : c.list s = .ok zs) (hnd : (zs.map DnsZone.Id).Nodup) :
    ∃ m, p.zones c s = .ok m ∧
      ∀ id z, mapLookup m id = some z ↔
        (z ∈ zs ∧
          (p.domainFilter z.Zone = true ∧
            p.zoneTypeFilter (getZoneType z) = true ∧
            (p.zoneIDFilter z.Id = true ∨ p.zoneIDFilter z.Name = true)) ∧
          z.Id = id) := by
  refine ⟨_, by rw [YandexProvider.zones, hlist], ?_⟩
  intro id z
  rw [zonesFold_lookup]
  constructor
  · intro h
    cases hlk : lastKept p id zs with
    | none => rw [hlk] at h; exact Option.noConfusion h
    | some w =>
      rw [hlk] at h
      cases h
      obtain ⟨h1, h2, h3⟩ := lastKept_some hlk
      exact ⟨h1, (zoneFilterMatch_iff p z).mp h2, h3⟩
  · intro ⟨h1, h2, h3⟩
    rw [lastKept_of_mem hnd h1 ((zoneFilterMatch_iff p z).mpr h2) h3]

/-- Witness for C2 at the concrete all-matching provider and client. -/
theorem zones_filter_characterization_wit :
    ∃ m, pAll.zones clientA () = .ok m ∧
      ∀ id z, mapLookup m id = some z ↔
        (z ∈ [zoneA] ∧
          (pAll.domainFilter z.Zone = true ∧
            pAll.zoneTypeFilter (getZoneType z) = true ∧
            (pAll.zoneIDFilter z.Id = true ∨ pAll.zoneIDFilter z.Name = true)) ∧
          z.Id = id) :=
  zones_filter_characterization clientA pAll () [zoneA] rfl (by simp)

theorem recordsGo_ok {σ : Type} (c : Client σ) (supported : String → Bool)
    (s : σ) (rsF : String → List RecordSet)
    (h : ∀ id, c.listRecordSets s id = .ok (rsF id)) :
    ∀ m : List (String × DnsZone),
      recordsGo c supported s m =
        .ok (m.flatMap (fun pr =>
          ((rsF pr.1).filter (fun r => supported r.Type')).map recordToEndpoint)) := by
  intro m
  induction m with
  | nil => rfl
  | cons pr rest ih =>
    obtain ⟨zoneId, z⟩ := pr
    rw [recordsGo, h zoneId, ih]
    rfl

/-- C6 counterexample: a filtered zone lists one record set of an
unsupported type and `Records` returns no endpoint for it (yandex.go:140
keeps only `provider.SupportedRecordType` types), contradicting the claim's
"one generic endpoint for every record set listed in every filtered zone". -/
theorem records_unsupported_type_cex :
    pAll.Records clientUnsup supportedRecordTypeModel () = .ok [] ∧
    clientUnsup.listRecordSets () "zone-a-id" = .ok [recUnsup] ∧
    supportedRecordTypeModel recUnsup.Type' = false := by
  refine ⟨rfl, rfl, by decide⟩

/-- C6 (amended): when no client call fails, `Records` returns one generic
endpoint for every record set of a supported type listed in every filtered
zone, with the endpoint's DNS name, record type, TTL and targets equal to
the record set's `Name`, `Type`, `Ttl` and `Data`. -/
theorem records_characterization {σ : Type} (c : Client σ)
    (p : YandexProvider) (supported : String → Bool) (s : σ)
    (zs : List DnsZone) (rsF : String → List RecordSet)
    (hlist : c.list s = .ok zs)
    (hrs : ∀ id, c.listRecordSets s id = .ok (rsF id)) :
    ∃ m, p.zones c s = .ok m ∧
      p.Records c supported s =
        .ok (m.flatMap (fun pr =>
          ((rsF pr.1).filter (fun r => supported r.Type')).map recordToEndpoint)) ∧
      ∀ r : RecordSet, (recordToEndpoint r).DNSName = r.Name ∧
        (recordToEndpoint r).RecordType = r.Type' ∧
        (recordToEndpoint r).RecordTTL = r.Ttl ∧
        (recordToEndpoint r).Targets = r.Data := by
  refine ⟨_, by rw [YandexProvider.zones, hlist], ?_, ?_⟩
  · simp only [YandexProvider.Records, YandexProvider.zones, hlist]
    exact recordsGo_ok c supported s rsF hrs _
  · intro r
    exact ⟨rfl, rfl, rfl, rfl⟩

/-- Witness for C6 at the concrete all-matching provider and client. -/
theorem records_characterization_wit :
    ∃ m, pAll.zones clientA () = .ok m ∧
      pAll.Records clientA supportedRecordTypeModel () =
        .ok (m.flatMap (fun _ =>
          (([recA].filter (fun r => supportedRecordTypeModel r.Type')).map
            recordToEndpoint))) ∧
      ∀ r : RecordSet, (recordToEndpoint r).DNSName = r.Name ∧
        (recordToEndpoint r).RecordType = r.Type' ∧
        (recordToEndpoint r).RecordTTL = r.Ttl ∧
        (recordToEndpoint r).Targets = r.Data :=
  records_characterization clientA pAll supportedRecordTypeModel () [zoneA]
    (fun _ => [recA]) rfl (fun _ => rfl)

theorem recordsGo_error_iff {σ : Type} (c : Client σ) (supported : String → Bool)
    (s : σ) :
    ∀ (m : List (String × DnsZone)) (e : String),
      recordsGo c supported s m = .error e ↔
        firstListRecordSetsError c s m = some e := by
  intro m
  induction m with
  | nil =>
    intro e
    constructor
    · intro h; exact Except.noConfusion h
    · intro h; exact Option.noConfusion h
  | cons pr rest ih =>
    obtain ⟨zoneId, z⟩ := pr
    intro e
    rw [recordsGo, firstListRecordSetsError]
    cases hc : c.listRecordSets s zoneId with
    | error e0 =>
      constructor
      · intro h
        injection h with h
        rw [h]
      · intro h
        injection h with h
        rw [h]
    | ok records =>
      cases hrest : recordsGo c supported s rest with
      | error e0 =>
        rw [hrest] at ih
        constructor
        · intro h
          injection h with h
          exact (ih e).mp (by rw [h])
        · intro h
          have := (ih e).mpr h
          injection this with this
          rw [this]
      | ok eps =>
        rw [hrest] at ih
        constructor
        · intro h
          exact Except.noConfusion h
        · intro h
          have := (ih e).mpr h
          exact Except.noConfusion this

theorem runUpdates_ok_applyAll {σ : Type} (c : Client σ) :
    ∀ (reqs : List UpdateRecordSetsRequest) (s s' : σ),
      applyAll c s reqs = .ok s' →
      runUpdates c false s reqs = (.ok (), s', reqs) := by
  intro reqs
  induction reqs with
  | nil =>
    intro s s' h
    injection h with h
    rw [h]
    rfl
  | cons r rs ih =>
    intro s s' h
    cases hc : c.updateRecordSets s r with
    | error e0 =>
      simp only [applyAll, hc] at h
      exact Except.noConfusion h
    | ok s1 =>
      simp only [applyAll, hc] at h
      have hrest := ih s1 s' h
      simp [runUpdates, hc, hrest]

theorem runUpdates_error_applyAll {σ : Type} (c : Client σ) :
    ∀ (reqs : List UpdateRecordSetsRequest) (s : σ) (e : String),
      applyAll c s reqs = .error e →
      ∃ s', runUpdates c false s reqs =
        (.error e, s', reqs.take (okPrefixLen c s reqs + 1)) ∧
        okPrefixLen c s reqs < reqs.length := by
  intro reqs
  induction reqs with
  | nil =>
    intro s e h
    exact Except.noConfusion h
  | cons r rs ih =>
    intro s e h
    cases hc : c.updateRecordSets s r with
    | error e0 =>
      simp only [applyAll, hc] at h
      injection h with h
      subst h
      refine ⟨s, ?_, ?_⟩
      · simp only [runUpdates, hc, okPrefixLen]
        rfl
      · simp only [okPrefixLen, hc, List.length_cons]
        omega
    | ok s1 =>
      simp only [applyAll, hc] at h
      obtain ⟨s', hrun, hlen⟩ := ih s1 e h
      refine ⟨s', ?_, ?_⟩
      · simp only [runUpdates, hc, hrun, okPrefixLen, List.take_succ_cons]
        rfl
      · simp only [okPrefixLen, hc, List.length_cons]
        omega

/-- C5: every error returned by `Records` is exactly the first failing
client call's error (from `List`, or from the first failing `ListRecordSets`
over the kept zones), and every error returned by `ApplyChanges` is the
`List` error (with no request submitted) or the first failing
`UpdateRecordSets` error, the submitted requests being exactly the per-zone
requests up to and including the failing one; no categorization, retry or
recovery occurs. -/
theorem errors_propagate_unchanged {σ : Type} (c : Client σ)
    (p : YandexProvider) (supported : String → Bool) (s : σ) (ch : Changes) :
    (∀ e, p.Records c supported s = .error e ↔
      (c.list s = .error e ∨
        ∃ m, p.zones c s = .ok m ∧ firstListRecordSetsError c s m = some e)) ∧
    (∀ e out, c.list s = .error e → p.ApplyChanges c s ch = some out →
      out = (.error e, s, [])) ∧
    (∀ e out m req, p.ApplyChanges c s ch = some out → p.zones c s = .ok m →
      combinedUpdateRequest p ch = some req → out.1 = .error e →
      applyAll c s ((separateChange m req).map Prod.snd) = .error e ∧
      out.2.2 = ((separateChange m req).map Prod.snd).take
        (okPrefixLen c s ((separateChange m req).map Prod.snd) + 1) ∧
      okPrefixLen c s ((separateChange m req).map Prod.snd) <
        ((separateChange m req).map Prod.snd).length) := by
  refine ⟨?_, ?_, ?_⟩
  · intro e
    cases hlist : c.list s with
    | error e0 =>
      simp only [YandexProvider.Records, YandexProvider.zones, hlist]
      constructor
      · intro h
        injection h with h
        exact Or.inl (by rw [h])
      · rintro (h | ⟨m, hm, _⟩)
        · injection h with h
          rw [h]
        · exact Except.noConfusion hm
    | ok zs =>
      simp only [YandexProvider.Records, YandexProvider.zones, hlist]
      rw [recordsGo_error_iff]
      constructor
      · intro h
        exact Or.inr ⟨_, rfl, h⟩
      · rintro (h | ⟨m, hm, hf⟩)
        · exact Except.noConfusion h
        · injection hm with hm
          rw [hm]
          exact hf
  · intro e out hlist happ
    cases hreq : combinedUpdateRequest p ch with
    | none =>
      simp only [YandexProvider.ApplyChanges, hreq] at happ
      exact Option.noConfusion happ
    | some req =>
      simp only [YandexProvider.ApplyChanges, hreq, YandexProvider.zones, hlist,
        Option.some.injEq] at happ
      exact happ.symm
  · intro e out m req happ hz hreq hout
    simp only [YandexProvider.ApplyChanges, hreq, hz, Option.some.injEq] at happ
    cases hd : p.dryRun with
    | true =>
      rw [hd, runUpdates_dry] at happ
      subst happ
      have hout' : (Except.ok () : Except String Unit) = .error e := hout
      exact Except.noConfusion hout'
    | false =>
      rw [hd] at happ
      cases ha : applyAll c s ((separateChange m req).map Prod.snd) with
      | ok s' =>
        rw [runUpdates_ok_applyAll c _ s s' ha] at happ
        subst happ
        have hout' : (Except.ok () : Except String Unit) = .error e := hout
        exact Except.noConfusion hout'
      | error e0 =>
        obtain ⟨s', hrun, hlen⟩ := runUpdates_error_applyAll c _ s e0 ha
        rw [hrun] at happ
        subst happ
        have hout' : (Except.error e0 : Except String Unit) = .error e := hout
        injection hout' with he
        subst he
        exact ⟨rfl, rfl, hlen⟩

/-- Witness for C5: with a failing zone listing, `ApplyChanges` returns that
exact error with no request submitted. -/
theorem errors_propagate_unchanged_wit :
    ((Except.error "list failed" : Except String Unit), (),
        ([] : List UpdateRecordSetsRequest)) =
      (.error "list failed", (), []) :=
  (errors_propagate_unchanged failListClient pAll supportedRecordTypeModel ()
    emptyChanges).2.1 "list failed" (.error "list failed", (), []) rfl rfl

theorem findZoneAux_nomatch (h : String) :
    ∀ (l : List (String × String)) (best : String × String),
      (∀ en ∈ l, zoneMatches h en.2 = false) → findZoneAux h l best = best := by
  intro l
  induction l with
  | nil => intro best _; rfl
  | cons en rest ih =>
    obtain ⟨zoneID, zoneName⟩ := en
    intro best hall
    have h0 : zoneMatches h zoneName = false := hall _ (List.mem_cons_self _ _)
    rw [findZoneAux, h0]
    simp only [Bool.false_and, Bool.false_eq_true, if_false]
    exact ih best (fun en hen => hall en (List.mem_cons_of_mem _ hen))

theorem findZoneAux_mem (h : String) :
    ∀ (l : List (String × String)) (best : String × String),
      findZoneAux h l best = best ∨
        (findZoneAux h l best ∈ l ∧
          zoneMatches h (findZoneAux h l best).2 = true) := by
  intro l
  induction l with
  | nil => intro best; exact Or.inl rfl
  | cons en rest ih =>
    obtain ⟨zoneID, zoneName⟩ := en
    intro best
    rw [findZoneAux]
    by_cases hc : (zoneMatches h zoneName &&
        (decide (best.2 = "") || decide (best.2.length < zoneName.length))) = true
    · rw [if_pos hc]
      have hm : zoneMatches h zoneName = true := (Bool.and_eq_true _ _).mp hc |>.1
      rcases ih (zoneID, zoneName) with heq | ⟨hmem, hmm⟩
      · exact Or.inr ⟨by rw [heq]; exact List.mem_cons_self _ _, by rw [heq]; exact hm⟩
      · exact Or.inr ⟨List.mem_cons_of_mem _ hmem, hmm⟩
    · rw [if_neg hc]
      rcases ih best with heq | ⟨hmem, hmm⟩
      · exact Or.inl heq
      · exact Or.inr ⟨List.mem_cons_of_mem _ hmem, hmm⟩

theorem findZoneAux_len_mono (h : String) :
    ∀ (l : List (String × String)) (best : String × String), best.2 ≠ "" →
      best.2.length ≤ (findZoneAux h l best).2.length ∧
        (findZoneAux h l best).2 ≠ "" := by
  intro l
  induction l with
  | nil => intro best hb; exact ⟨Nat.le_refl _, hb⟩
  | cons en rest ih =>
    obtain ⟨zoneID, zoneName⟩ := en
    intro best hb
    rw [findZoneAux]
    by_cases hc : (zoneMatches h zoneName &&
        (decide (best.2 = "") || decide (best.2.length < zoneName.length))) = true
    · rw [if_pos hc]
      have hor := (Bool.and_eq_true _ _).mp hc |>.2
      have hlt : best.2.length < zoneName.length := by
        rcases (Bool.or_eq_true _ _).mp hor with hemp | hlt
        · exact absurd (by simpa using hemp) hb
        · simpa using hlt
      have hzn : zoneName ≠ "" := by
        intro hempty
        rw [hempty] at hlt
        simp at hlt
      obtain ⟨h1, h2⟩ := ih (zoneID, zoneName) hzn
      exact ⟨Nat.le_trans (Nat.le_of_lt hlt) h1, h2⟩
    · rw [if_neg hc]
      exact ih best hb

theorem findZoneAux_maximal (h : String) :
    ∀ (l : List (String × String)) (best : String × String),
      ∀ en ∈ l, zoneMatches h en.2 = true →
        en.2.length ≤ (findZoneAux h l best).2.length := by
  intro l
  induction l with
  | nil => intro best en hen; exact absurd hen (List.not_mem_nil en)
  | cons hd rest ih =>
    obtain ⟨zoneID, zoneName⟩ := hd
    intro best en hen hm
    rw [findZoneAux]
    by_cases hc : (zoneMatches h zoneName &&
        (decide (best.2 = "") || decide (best.2.length < zoneName.length))) = true
    · rw [if_pos hc]
      rcases List.mem_cons.mp hen with heq | hmem
      · subst heq
        by_cases hzn : zoneName = ""
        · simp only at hm ⊢
          rw [hzn]
          exact Nat.zero_le _
        · exact Nat.le_trans (Nat.le_refl _)
            (findZoneAux_len_mono h rest (zoneID, zoneName) hzn).1
      · exact ih (zoneID, zoneName) en hmem hm
    · rw [if_neg hc]
      rcases List.mem_cons.mp hen with heq | hmem
      · subst heq
        simp only at hm
        have hor : ¬((decide (best.2 = "")) || decide (best.2.length < zoneName.length)) = true := by
          intro habs
          exact hc ((Bool.and_eq_true _ _).mpr ⟨hm, habs⟩)
        have hb : best.2 ≠ "" := by
          intro hempty
          exact hor (by simp [hempty])
        have hle : zoneName.length ≤ best.2.length := by
          by_cases hlt : best.2.length < zoneName.length
          · exact absurd (by simp [hlt]) hor
          · omega
        exact Nat.le_trans hle (findZoneAux_len_mono h rest best hb).1
      · exact ih best en hmem hm

theorem findZone_found (h : String) :
    ∀ (l : List (String × String)),
      (∃ en ∈ l, zoneMatches h en.2 = true) →
      findZone l h ∈ l ∧ zoneMatches h (findZone l h).2 = true := by
  intro l
  induction l with
  | nil => rintro ⟨en, hen, _⟩; exact absurd hen (List.not_mem_nil en)
  | cons hd rest ih =>
    obtain ⟨zoneID, zoneName⟩ := hd
    rintro ⟨en, hen, hm⟩
    rw [findZone, findZoneAux]
    by_cases hhd : zoneMatches h zoneName = true
    · rw [if_pos (by simp [hhd])]
      rcases findZoneAux_mem h rest (zoneID, zoneName) with heq | ⟨hmem, hmm⟩
      · exact ⟨by rw [heq]; exact List.mem_cons_self _ _, by rw [heq]; exact hhd⟩
      · exact ⟨List.mem_cons_of_mem _ hmem, hmm⟩
    · rw [if_neg (by simp [hhd])]
      rcases List.mem_cons.mp hen with heq | hmem
      · subst heq
        exact absurd hm hhd
      · obtain ⟨h1, h2⟩ := ih ⟨en, hmem, hm⟩
        rw [findZone] at h1 h2
        exact ⟨List.mem_cons_of_mem _ h1, h2⟩

theorem findZone_nomatch (h : String) (l : List (String × String))
    (hall : ∀ en ∈ l, zoneMatches h en.2 = false) :
    findZone l h = ("", "") :=
  findZoneAux_nomatch h l ("", "") hall

theorem mapLookup_updateAdd (k k' : String) (a : RecordSet) :
    ∀ m : List (String × UpdateRecordSetsRequest),
      mapLookup (updateAdd m k a) k' =
        if k' = k then
          (mapLookup m k').map (fun r => { r with Additions := r.Additions ++ [a] })
        else mapLookup m k' := by
  intro m
  induction m with
  | nil =>
    by_cases hk : k' = k <;> simp [updateAdd, mapLookup, hk]
  | cons pr rest ih =>
    obtain ⟨k0, v⟩ := pr
    by_cases h0 : k0 = k <;> by_cases hk : k0 = k' <;>
      simp_all [updateAdd, mapLookup] <;>
      rw [if_neg (fun h => hk h.symm), if_neg (fun h => hk h.symm)]

theorem mapLookup_updateDel (k k' : String) (d : RecordSet) :
    ∀ m : List (String × UpdateRecordSetsRequest),
      mapLookup (updateDel m k d) k' =
        if k' = k then
          (mapLookup m k').map (fun r => { r with Deletions := r.Deletions ++ [d] })
        else mapLookup m k' := by
  intro m
  induction m with
  | nil =>
    by_cases hk : k' = k <;> simp [updateDel, mapLookup, hk]
  | cons pr rest ih =>
    obtain ⟨k0, v⟩ := pr
    by_cases h0 : k0 = k <;> by_cases hk : k0 = k' <;>
      simp_all [updateDel, mapLookup] <;>
      rw [if_neg (fun h => hk h.symm), if_neg (fun h => hk h.symm)]

theorem routeAdds_cons (mapper : List (String × String))
    (m : List (String × UpdateRecordSetsRequest)) (a : RecordSet)
    (rest : List RecordSet) :
    routeAdds mapper m (a :: rest) =
      routeAdds mapper
        (if routeKey mapper a ≠ "" then updateAdd m (routeKey mapper a) a else m)
        rest := rfl

theorem routeDels_cons (mapper : List (String × String))
    (m : List (String × UpdateRecordSetsRequest)) (d : RecordSet)
    (rest : List RecordSet) :
    routeDels mapper m (d :: rest) =
      routeDels mapper
        (if routeKey mapper d ≠ "" then updateDel m (routeKey mapper d) d else m)
        rest := rfl

theorem routeAdds_lookup (mapper : List (String × String)) (k : String)
    (hk : k ≠ "") :
    ∀ (as : List RecordSet) (m : List (String × UpdateRecordSetsRequest)),
      mapLookup (routeAdds mapper m as) k =
        (mapLookup m k).map (fun r =>
          { r with Additions :=
              r.Additions ++ as.filter (fun a => decide (routeKey mapper a = k)) }) := by
  intro as
  induction as with
  | nil =>
    intro m
    cases hlm : mapLookup m k with
    | none => simp [routeAdds, hlm]
    | some r =>
      obtain ⟨zid, adds, dels⟩ := r
      simp [routeAdds, hlm]
  | cons a rest ih =>
    intro m
    rw [routeAdds_cons]
    by_cases hr : routeKey mapper a = k
    · rw [if_pos (by rw [hr]; exact hk), hr, ih, mapLookup_updateAdd, if_pos rfl,
        List.filter_cons, if_pos (by simp [hr])]
      cases hlm : mapLookup m k with
      | none => rfl
      | some r =>
        obtain ⟨zid, adds, dels⟩ := r
        simp [List.append_assoc]
    · by_cases hz : routeKey mapper a = ""
      · rw [if_neg (by simp [hz]), ih, List.filter_cons, if_neg (by simp [hr])]
      · rw [if_pos hz, ih, mapLookup_updateAdd, if_neg (fun h => hr h.symm),
          List.filter_cons, if_neg (by simp [hr])]

theorem routeDels_lookup (mapper : List (String × String)) (k : String)
    (hk : k ≠ "") :
    ∀ (ds : List RecordSet) (m : List (String × UpdateRecordSetsRequest)),
      mapLookup (routeDels mapper m ds) k =
        (mapLookup m k).map (fun r =>
          { r with Deletions :=
              r.Deletions ++ ds.filter (fun d => decide (routeKey mapper d = k)) }) := by
  intro ds
  induction ds with
  | nil =>
    intro m
    cases hlm : mapLookup m k with
    | none => simp [routeDels, hlm]
    | some r =>
      obtain ⟨zid, adds, dels⟩ := r
      simp [routeDels, hlm]
  | cons d rest ih =>
    intro m
    rw [routeDels_cons]
    by_cases hr : routeKey mapper d = k
    · rw [if_pos (by rw [hr]; exact hk), hr, ih, mapLookup_updateDel, if_pos rfl,
        List.filter_cons, if_pos (by simp [hr])]
      cases hlm : mapLookup m k with
      | none => rfl
      | some r =>
        obtain ⟨zid, adds, dels⟩ := r
        simp [List.append_assoc]
    · by_cases hz : routeKey mapper d = ""
      · rw [if_neg (by simp [hz]), ih, List.filter_cons, if_neg (by simp [hr])]
      · rw [if_pos hz, ih, mapLookup_updateDel, if_neg (fun h => hr h.symm),
          List.filter_cons, if_neg (by simp [hr])]

theorem mapLookup_map_of_nodup {α β : Type} (f : α → String) (g : α → β) :
    ∀ (l : List α), (l.map f).Nodup → ∀ x ∈ l,
      mapLookup (l.map (fun y => (f y, g y))) (f x) = some (g x) := by
  intro l
  induction l with
  | nil => intro _ x hx; exact absurd hx (List.not_mem_nil x)
  | cons y rest ih =>
    intro hnd x hx
    rw [List.map_cons, List.nodup_cons] at hnd
    rcases List.mem_cons.mp hx with heq | hmem
    · subst heq
      rw [List.map_cons, mapLookup, if_pos rfl]
    · rw [List.map_cons, mapLookup]
      have hne : ¬ f y = f x := by
        intro habs
        exact hnd.1 (habs ▸ List.mem_map_of_mem f hmem)
      rw [if_neg hne]
      exact ih hnd.2 x hmem

theorem updateAdd_keys (k : String) (a : RecordSet) :
    ∀ m : List (String × UpdateRecordSetsRequest),
      (updateAdd m k a).map Prod.fst = m.map Prod.fst := by
  intro m
  induction m with
  | nil => rfl
  | cons pr rest ih =>
    obtain ⟨k0, v⟩ := pr
    by_cases h0 : k0 = k <;> simp [updateAdd, h0, ih]

theorem updateDel_keys (k : String) (d : RecordSet) :
    ∀ m : List (String × UpdateRecordSetsRequest),
      (updateDel m k d).map Prod.fst = m.map Prod.fst := by
  intro m
  induction m with
  | nil => rfl
  | cons pr rest ih =>
    obtain ⟨k0, v⟩ := pr
    by_cases h0 : k0 = k <;> simp [updateDel, h0, ih]

theorem routeAdds_keys (mapper : List (String × String)) :
    ∀ (as : List RecordSet) (m : List (String × UpdateRecordSetsRequest)),
      (routeAdds mapper m as).map Prod.fst = m.map Prod.fst := by
  intro as
  induction as with
  | nil => intro m; rfl
  | cons a rest ih =>
    intro m
    rw [routeAdds_cons, ih]
    by_cases hz : routeKey mapper a ≠ ""
    · rw [if_pos hz, updateAdd_keys]
    · rw [if_neg hz]

theorem routeDels_keys (mapper : List (String × String)) :
    ∀ (ds : List RecordSet) (m : List (String × UpdateRecordSetsRequest)),
      (routeDels mapper m ds).map Prod.fst = m.map Prod.fst := by
  intro ds
  induction ds with
  | nil => intro m; rfl
  | cons d rest ih =>
    intro m
    rw [routeDels_cons, ih]
    by_cases hz : routeKey mapper d ≠ ""
    · rw [if_pos hz, updateDel_keys]
    · rw [if_neg hz]

theorem mapLookup_filter {α : Type} (q : α → Bool) (k : String) :
    ∀ (l : List (String × α)), (l.map Prod.fst).Nodup →
      mapLookup (l.filter (fun pr => q pr.2)) k =
        match mapLookup l k with
        | none => none
        | some r => if q r then some r else none := by
  intro l
  induction l with
  | nil => intro _; rfl
  | cons pr rest ih =>
    obtain ⟨k0, v⟩ := pr
    intro hnd
    rw [List.map_cons, List.nodup_cons] at hnd
    by_cases h0 : k0 = k
    · subst h0
      rw [mapLookup, if_pos rfl, List.filter_cons]
      by_cases hq : q v = true
      · rw [if_pos (by simpa using hq), mapLookup, if_pos rfl]
        simp [hq]
      · have hq' : q v = false := by
          cases hv : q v
          · rfl
          · exact absurd hv hq
        rw [if_neg (by simp [hq'])]
        have hrhs : (match some v with
            | none => none
            | some r => if q r = true then some r else none) = (none : Option α) := by
          simp [hq']
        rw [hrhs, mapLookup_eq_none_iff]
        intro habs
        obtain ⟨pr', hpr', hfst⟩ := List.mem_map.mp habs
        have hmem : pr'.1 ∈ List.map Prod.fst rest :=
          List.mem_map_of_mem Prod.fst (List.mem_filter.mp hpr').1
        rw [hfst] at hmem
        exact hnd.1 hmem
    · rw [mapLookup, if_neg h0, List.filter_cons]
      by_cases hq : q v = true
      · rw [if_pos (by simpa using hq), mapLookup, if_neg h0]
        exact ih hnd.2
      · have hq' : q v = false := by
          cases hv : q v
          · rfl
          · exact absurd hv hq
        rw [if_neg (by simp [hq'])]
        exact ih hnd.2

theorem updateAdd_entry (k : String) (a : RecordSet) :
    ∀ (m : List (String × UpdateRecordSetsRequest))
      (pr' : String × UpdateRecordSetsRequest), pr' ∈ updateAdd m k a →
      ∃ pr0 ∈ m, pr'.1 = pr0.1 ∧ pr'.2.DnsZoneId = pr0.2.DnsZoneId := by
  intro m
  induction m with
  | nil => intro pr' h; exact absurd h (List.not_mem_nil pr')
  | cons pr rest ih =>
    obtain ⟨k0, v⟩ := pr
    intro pr' h
    rw [updateAdd] at h
    by_cases h0 : k0 = k
    · rw [if_pos h0] at h
      rcases List.mem_cons.mp h with heq | hmem
      · exact ⟨(k0, v), List.mem_cons_self _ _, by rw [heq], by rw [heq]⟩
      · obtain ⟨pr0, h1, h2, h3⟩ := ih pr' hmem
        exact ⟨pr0, List.mem_cons_of_mem _ h1, h2, h3⟩
    · rw [if_neg h0] at h
      rcases List.mem_cons.mp h with heq | hmem
      · exact ⟨(k0, v), List.mem_cons_self _ _, by rw [heq], by rw [heq]⟩
      · obtain ⟨pr0, h1, h2, h3⟩ := ih pr' hmem
        exact ⟨pr0, List.mem_cons_of_mem _ h1, h2, h3⟩

theorem updateDel_entry (k : String) (d : RecordSet) :
    ∀ (m : List (String × UpdateRecordSetsRequest))
      (pr' : String × UpdateRecordSetsRequest), pr' ∈ updateDel m k d →
      ∃ pr0 ∈ m, pr'.1 = pr0.1 ∧ pr'.2.DnsZoneId = pr0.2.DnsZoneId := by
  intro m
  induction m with
  | nil => intro pr' h; exact absurd h (List.not_mem_nil pr')
  | cons pr rest ih =>
    obtain ⟨k0, v⟩ := pr
    intro pr' h
    rw [updateDel] at h
    by_cases h0 : k0 = k
    · rw [if_pos h0] at h
      rcases List.mem_cons.mp h with heq | hmem
      · exact ⟨(k0, v), List.mem_cons_self _ _, by rw [heq], by rw [heq]⟩
      · obtain ⟨pr0, h1, h2, h3⟩ := ih pr' hmem
        exact ⟨pr0, List.mem_cons_of_mem _ h1, h2, h3⟩
    · rw [if_neg h0] at h
      rcases List.mem_cons.mp h with heq | hmem
      · exact ⟨(k0, v), List.mem_cons_self _ _, by rw [heq], by rw [heq]⟩
      · obtain ⟨pr0, h1, h2, h3⟩ := ih pr' hmem
        exact ⟨pr0, List.mem_cons_of_mem _ h1, h2, h3⟩

theorem routeAdds_entry (mapper : List (String × String)) :
    ∀ (as : List RecordSet) (m : List (String × UpdateRecordSetsRequest))
      (pr' : String × UpdateRecordSetsRequest), pr' ∈ routeAdds mapper m as →
      ∃ pr0 ∈ m, pr'.1 = pr0.1 ∧ pr'.2.DnsZoneId = pr0.2.DnsZoneId := by
  intro as
  induction as with
  | nil => intro m pr' h; exact ⟨pr', h, rfl, rfl⟩
  | cons a rest ih =>
    intro m pr' h
    rw [routeAdds_cons] at h
    by_cases hz : routeKey mapper a ≠ ""
    · rw [if_pos hz] at h
      obtain ⟨pr1, h1, h2, h3⟩ := ih _ pr' h
      obtain ⟨pr0, h4, h5, h6⟩ := updateAdd_entry _ _ m pr1 h1
      exact ⟨pr0, h4, h2.trans h5, h3.trans h6⟩
    · rw [if_neg hz] at h
      exact ih m pr' h

theorem routeDels_entry (mapper : List (String × String)) :
    ∀ (ds : List RecordSet) (m : List (String × UpdateRecordSetsRequest))
      (pr' : String × UpdateRecordSetsRequest), pr' ∈ routeDels mapper m ds →
      ∃ pr0 ∈ m, pr'.1 = pr0.1 ∧ pr'.2.DnsZoneId = pr0.2.DnsZoneId := by
  intro ds
  induction ds with
  | nil => intro m pr' h; exact ⟨pr', h, rfl, rfl⟩
  | cons d rest ih =>
    intro m pr' h
    rw [routeDels_cons] at h
    by_cases hz : routeKey mapper d ≠ ""
    · rw [if_pos hz] at h
      obtain ⟨pr1, h1, h2, h3⟩ := ih _ pr' h
      obtain ⟨pr0, h4, h5, h6⟩ := updateDel_entry _ _ m pr1 h1
      exact ⟨pr0, h4, h2.trans h5, h3.trans h6⟩
    · rw [if_neg hz] at h
      exact ih m pr' h

theorem separateChange_eq (zs : List (String × DnsZone))
    (change : UpdateRecordSetsRequest) :
    separateChange zs change =
      (routeDels (zoneMapper zs)
          (routeAdds (zoneMapper zs) (initRequests zs) change.Additions)
          change.Deletions).filter
        (fun pr => !(pr.2.Additions.isEmpty && pr.2.Deletions.isEmpty)) := rfl

theorem mapLookup_initRequests (zs : List (String × DnsZone))
    (hnd : (zs.map (fun pr => pr.2.Id)).Nodup) :
    ∀ pr ∈ zs, mapLookup (initRequests zs) pr.2.Id =
      some { DnsZoneId := pr.2.Id, Additions := [], Deletions := [] } := by
  induction zs with
  | nil => intro pr hpr; exact absurd hpr (List.not_mem_nil pr)
  | cons q rest ih =>
    rw [List.map_cons, List.nodup_cons] at hnd
    intro pr hpr
    rcases List.mem_cons.mp hpr with heq | hmem
    · subst heq
      rw [initRequests, List.map_cons, mapLookup, if_pos rfl]
    · rw [initRequests, List.map_cons, mapLookup]
      have hne : ¬ q.2.Id = pr.2.Id := by
        intro habs
        exact hnd.1 (habs ▸ List.mem_map_of_mem (fun pr => pr.2.Id) hmem)
      rw [if_neg hne]
      exact ih hnd.2 pr hmem

theorem initRequests_mem (zs : List (String × DnsZone)) :
    ∀ pr0 ∈ initRequests zs, ∃ q ∈ zs,
      pr0.1 = q.2.Id ∧ pr0.2.DnsZoneId = q.2.Id := by
  intro pr0 h0
  obtain ⟨q, hq, heq⟩ := List.mem_map.mp h0
  exact ⟨q, hq, by rw [← heq], by rw [← heq]⟩

/-- C4 counterexample: with a single matching zone whose `Id` is the empty
string, the addition matches the zone's name but `separateChange` drops it
(the Go `zoneName != ""` check at yandex.go:255 fires on the empty zone ID),
so the returned map is empty although the claim routes the addition to that
zone's request. -/
theorem separateChange_empty_id_cex :
    separateChange [("", zoneEmptyId)] reqAddA = [] ∧
    zoneMatches (ensureTrailingDot recA.Name) zoneEmptyId.Zone = true ∧
    reqAddA.Additions ≠ [] := by
  refine ⟨by decide, by decide, by decide⟩

/-- C4 (amended): for a zones map whose zones have pairwise distinct,
nonempty IDs, `separateChange` routes every addition and deletion to the
per-zone request of the zone `findZone` selects — the zone whose name is a
longest suffix match of the record's trailing-dot-normalized name — while a
record matching no zone (routed key `""`) appears in no request; the
returned map contains a request exactly for the zones with at least one
routed addition or deletion, each request carrying that zone's Id. -/
theorem separateChange_routing (zs : List (String × DnsZone))
    (change : UpdateRecordSetsRequest)
    (hne : ∀ pr ∈ zs, pr.2.Id ≠ "")
    (hnd : (zs.map (fun pr => pr.2.Id)).Nodup) :
    (∀ pr ∈ zs,
      mapLookup (separateChange zs change) pr.2.Id =
        if (change.Additions.filter
              (fun a => decide (routeKey (zoneMapper zs) a = pr.2.Id))) = [] ∧
            (change.Deletions.filter
              (fun d => decide (routeKey (zoneMapper zs) d = pr.2.Id))) = [] then
          none
        else some
          { DnsZoneId := pr.2.Id
            Additions := change.Additions.filter
              (fun a => decide (routeKey (zoneMapper zs) a = pr.2.Id))
            Deletions := change.Deletions.filter
              (fun d => decide (routeKey (zoneMapper zs) d = pr.2.Id)) }) ∧
    (∀ pr' ∈ separateChange zs change,
      pr'.2.DnsZoneId = pr'.1 ∧
      ¬(pr'.2.Additions = [] ∧ pr'.2.Deletions = []) ∧
      ∃ q ∈ zs, pr'.1 = q.2.Id) ∧
    (∀ hostname : String,
      ((∃ en ∈ zoneMapper zs, zoneMatches hostname en.2 = true) →
        findZone (zoneMapper zs) hostname ∈ zoneMapper zs ∧
        zoneMatches hostname (findZone (zoneMapper zs) hostname).2 = true ∧
        ∀ en ∈ zoneMapper zs, zoneMatches hostname en.2 = true →
          en.2.length ≤ (findZone (zoneMapper zs) hostname).2.length) ∧
      ((∀ en ∈ zoneMapper zs, zoneMatches hostname en.2 = false) →
        findZone (zoneMapper zs) hostname = ("", ""))) := by
  have hkeysInit : (initRequests zs).map Prod.fst = zs.map (fun pr => pr.2.Id) := by
    rw [initRequests, List.map_map]
    rfl
  have hkeysRouted : ((routeDels (zoneMapper zs)
      (routeAdds (zoneMapper zs) (initRequests zs) change.Additions)
      change.Deletions).map Prod.fst).Nodup := by
    rw [routeDels_keys, routeAdds_keys, hkeysInit]
    exact hnd
  refine ⟨?_, ?_, ?_⟩
  · intro pr hpr
    have hid := hne pr hpr
    rw [separateChange_eq,
      mapLookup_filter
        (fun v => !(v.Additions.isEmpty && v.Deletions.isEmpty)) _ _ hkeysRouted,
      routeDels_lookup _ _ hid, routeAdds_lookup _ _ hid,
      mapLookup_initRequests zs hnd pr hpr]
    by_cases hA : (change.Additions.filter
        (fun a => decide (routeKey (zoneMapper zs) a = pr.2.Id))) = [] <;>
      by_cases hD : (change.Deletions.filter
        (fun d => decide (routeKey (zoneMapper zs) d = pr.2.Id))) = [] <;>
      simp [hA, hD]
  · intro pr' hpr'
    rw [separateChange_eq] at hpr'
    obtain ⟨hmem, hpred⟩ := List.mem_filter.mp hpr'
    obtain ⟨pr1, h1, h2, h3⟩ := routeDels_entry (zoneMapper zs) _ _ _ hmem
    obtain ⟨pr0, h4, h5, h6⟩ := routeAdds_entry (zoneMapper zs) _ _ _ h1
    obtain ⟨q, hq, h7, h8⟩ := initRequests_mem zs pr0 h4
    refine ⟨?_, ?_, q, hq, ?_⟩
    · rw [h3, h6, h8, ← h7, ← h5, ← h2]
    · intro ⟨ha, hd⟩
      rw [ha, hd] at hpred
      simp at hpred
    · rw [h2, h5, h7]
  · intro hostname
    constructor
    · intro hex
      obtain ⟨h1, h2⟩ := findZone_found hostname (zoneMapper zs) hex
      exact ⟨h1, h2, fun en hen hm => findZoneAux_maximal hostname _ ("", "") en hen hm⟩
    · intro hall
      exact findZone_nomatch hostname (zoneMapper zs) hall

/-- Witness for C4 at the concrete single-zone map and one-addition change. -/
theorem separateChange_routing_wit :
    (∀ pr ∈ [("zone-a-id", zoneA)],
      mapLookup (separateChange [("zone-a-id", zoneA)] reqAddA) pr.2.Id =
        if (reqAddA.Additions.filter
              (fun a => decide (routeKey (zoneMapper [("zone-a-id", zoneA)]) a = pr.2.Id))) = [] ∧
            (reqAddA.Deletions.filter
              (fun d => decide (routeKey (zoneMapper [("zone-a-id", zoneA)]) d = pr.2.Id))) = [] then
          none
        else some
          { DnsZoneId := pr.2.Id
            Additions := reqAddA.Additions.filter
              (fun a => decide (routeKey (zoneMapper [("zone-a-id", zoneA)]) a = pr.2.Id))
            Deletions := reqAddA.Deletions.filter
              (fun d => decide (routeKey (zoneMapper [("zone-a-id", zoneA)]) d = pr.2.Id)) }) ∧
    (∀ pr' ∈ separateChange [("zone-a-id", zoneA)] reqAddA,
      pr'.2.DnsZoneId = pr'.1 ∧
      ¬(pr'.2.Additions = [] ∧ pr'.2.Deletions = []) ∧
      ∃ q ∈ [("zone-a-id", zoneA)], pr'.1 = q.2.Id) ∧
    (∀ hostname : String,
      ((∃ en ∈ zoneMapper [("zone-a-id", zoneA)], zoneMatches hostname en.2 = true) →
        findZone (zoneMapper [("zone-a-id", zoneA)]) hostname ∈ zoneMapper [("zone-a-id", zoneA)] ∧
        zoneMatches hostname (findZone (zoneMapper [("zone-a-id", zoneA)]) hostname).2 = true ∧
        ∀ en ∈ zoneMapper [("zone-a-id", zoneA)], zoneMatches hostname en.2 = true →
          en.2.length ≤ (findZone (zoneMapper [("zone-a-id", zoneA)]) hostname).2.length) ∧
      ((∀ en ∈ zoneMapper [("zone-a-id", zoneA)], zoneMatches hostname en.2 = false) →
        findZone (zoneMapper [("zone-a-id", zoneA)]) hostname = ("", ""))) :=
  separateChange_routing [("zone-a-id", zoneA)] reqAddA
    (by intro pr hpr; rw [List.mem_singleton] at hpr; rw [hpr]; decide)
    (by simp)
